import Mathlib

/-!
# The FLAC decoder fuzz harness (`fuzzer/flac_dec_fuzzer.cpp`)

A shallow embedding of the `Codec` class of the harness and of the entry point
`LLVMFuzzerTestOneInput`, with theorems about the byte source the harness offers to the
stream decoder (`Codec::readCallback`) and about the order in which the harness drives the
decoder (`Codec::initDecoder`, `Codec::decodeFrames`).

Conventions.

* `size_t` is 64 bits wide; values are natural numbers and the two arithmetic operations the
  harness performs on them (`mBufferLen - mBufferPos`, `mBufferPos += n`) are taken modulo
  `2 ^ 64`.
* A pointer to bytes is an `Option (List FLAC__byte)`: `none` is the null pointer, `some l`
  points at the array `l`.
* A read outside the array is undefined behaviour; `memcpy` returns `none` for it and the
  harness functions report it as `Res.fault`.
* The stream decoder (`FLAC__stream_decoder_*`) and `FuzzedDataProvider` are not defined in
  the harness; the harness functions take them as parameters.
-/

namespace FlacFuzz

/-! ## Machine integers and memory -/

/-- One past the largest `size_t`. -/
def SIZE_MOD : Nat := 2 ^ 64

/-- Unsigned `size_t` subtraction `a - b`: wraps around when `b > a`. -/
def size_sub (a b : Nat) : Nat := (a + SIZE_MOD - b % SIZE_MOD) % SIZE_MOD

/-- Unsigned `size_t` addition `a + b`. -/
def size_add (a b : Nat) : Nat := (a + b) % SIZE_MOD

/-- A byte (`uint8_t`, `FLAC__byte`). -/
abbrev FLAC__byte := Fin 256

/-- The source indices touched by `memcpy(dst, src + off, n)`: `off, off + 1, ..., off + n - 1`. -/
def memcpyIndices (off n : Nat) : List Nat := List.range' off n

/-- The bytes `memcpy(dst, src + off, n)` copies, read one index after the other; `none` when one
of the indices lies outside the array `src` (undefined behaviour). -/
def memcpy (src : List FLAC__byte) (off : Nat) : Nat → Option (List FLAC__byte)
  | 0 => some []
  | n + 1 =>
    match src[off]? with
    | none => none
    | some b =>
      match memcpy src (off + 1) n with
      | none => none
      | some bs => some (b :: bs)

/-! ## Status codes -/

/-- The return values of the read callback, under the names the harness uses (lines 138, 147,
148); the enumeration is declared in `FLAC/stream_decoder.h`. -/
inductive FLAC__StreamDecoderReadStatus where
  | CONTINUE
  | END_OF_STREAM
  | ABORT
  deriving DecidableEq, Repr

/-- Modelled from the spec: what the frame callback returns, accept or abort (section 6), under
the names of `FLAC__StreamDecoderWriteStatus`, which is declared in `FLAC/stream_decoder.h`,
absent from the sources. The harness only returns `CONTINUE` (line 155). -/
inductive FLAC__StreamDecoderWriteStatus where
  | CONTINUE
  | ABORT
  deriving DecidableEq, Repr

/-! ## FuzzedDataProvider -/

/-- The state of a `FuzzedDataProvider`: the data it was built over and the number of bytes it
has not consumed yet. -/
structure FuzzedDataProvider where
  data_ptr_ : Option (List FLAC__byte)
  remaining_bytes_ : Nat
  deriving DecidableEq, Repr

/-! ## The Codec -/

/-- The data members of `class Codec`; `D` is the type of the decoder object `mDecoder` points
to. -/
structure Codec (D : Type) where
  mDecoder : Option D
  mBuffer : Option (List FLAC__byte)
  mBufferLen : Nat
  mBufferPos : Nat
  mFdp : FuzzedDataProvider

/-- The constructor `Codec(data, size)`: `mFdp(data, size)`, `mBuffer = data`,
`mBufferLen = size`; `mDecoder` and `mBufferPos` keep their default member initialisers. -/
def Codec.new {D : Type} (data : Option (List FLAC__byte)) (size : Nat) : Codec D :=
  { mDecoder := none
    mBuffer := data
    mBufferLen := size
    mBufferPos := 0
    mFdp := { data_ptr_ := data, remaining_bytes_ := size } }

/-- What one call of `readCallback(buffer, bytes)` leaves behind: the bytes written to `buffer`,
the value stored in `*bytes`, the returned status, the source indices `memcpy` read, and the
Codec afterwards. -/
structure ReadResult (D : Type) where
  buffer : List FLAC__byte
  bytes : Nat
  status : FLAC__StreamDecoderReadStatus
  reads : List Nat
  codec : Codec D

/-- The method `Codec::readCallback`, called with `*bytes = bytes`; `none` when `memcpy` reads
outside the input. -/
def readCallback {D : Type} (c : Codec D) (bytes : Nat) : Option (ReadResult D) :=
  match c.mBuffer with
  | none =>
    some { buffer := [], bytes := 0, status := .ABORT, reads := [], codec := c }
  | some src =>
    if c.mBufferLen = 0 then
      some { buffer := [], bytes := 0, status := .ABORT, reads := [], codec := c }
    else
      let bytesRequested :=
        if bytes > size_sub c.mBufferLen c.mBufferPos then size_sub c.mBufferLen c.mBufferPos
        else bytes
      match memcpy src c.mBufferPos bytesRequested with
      | none => none
      | some out =>
        some { buffer := out
               bytes := bytesRequested
               status := if bytesRequested = 0 then .END_OF_STREAM else .CONTINUE
               reads := memcpyIndices c.mBufferPos bytesRequested
               codec := { c with mBufferPos := size_add c.mBufferPos bytesRequested } }

/-- The method `Codec::writeCallback`: both arguments are ignored. -/
def writeCallback {D : Type} (_c : Codec D) : FLAC__StreamDecoderWriteStatus := .CONTINUE

/-- Successive `readCallback` calls with the request sizes `reqs`, in order; the results of the
calls and the Codec after the last one. -/
def readMany {D : Type} (c : Codec D) : List Nat → Option (List (ReadResult D) × Codec D)
  | [] => some ([], c)
  | n :: reqs =>
    match readCallback c n with
    | none => none
    | some r =>
      match readMany r.codec reqs with
      | none => none
      | some (rs, c') => some (r :: rs, c')

/-- The state of a Codec whose buffer is the array `mBuffer` points at, with the read position
inside it. -/
def Codec.WF {D : Type} (c : Codec D) : Prop :=
  c.mBufferPos ≤ c.mBufferLen ∧ c.mBufferLen < SIZE_MOD ∧
    ∀ src, c.mBuffer = some src → src.length = c.mBufferLen

/-! ## The stream decoder, seen from the harness -/

/-- The eight metadata block types the harness names in `kMetadataTypes`. -/
inductive FLAC__MetadataType where
  | STREAMINFO
  | PADDING
  | APPLICATION
  | SEEKTABLE
  | VORBIS_COMMENT
  | CUESHEET
  | PICTURE
  | UNDEFINED
  deriving DecidableEq, Repr

/-- The array `kMetadataTypes[8]`. -/
def kMetadataTypes : Fin 8 → FLAC__MetadataType :=
  ![.PICTURE, .STREAMINFO, .PADDING, .APPLICATION, .SEEKTABLE, .VORBIS_COMMENT, .CUESHEET,
    .UNDEFINED]

/-- The array `kMetadataIDs[3]`. -/
def kMetadataIDs : Fin 3 → String := !["aiff", "riff", "w64"]

/-- Modelled from the spec: the results of `initialize()`: success, a required callback is null
(section 6: none may be null), or the decoder was already started (section 4.1). The enumeration
`FLAC__StreamDecoderInitStatus` is declared in `FLAC/stream_decoder.h`, absent from the sources;
the harness only tests for `OK` (line 123). -/
inductive FLAC__StreamDecoderInitStatus where
  | OK
  | INVALID_CALLBACKS
  | ALREADY_INITIALIZED
  deriving DecidableEq, Repr

/-- Modelled from the spec: the decoder states of section 4.1. The enumeration
`FLAC__StreamDecoderState` is declared in `FLAC/stream_decoder.h`, absent from the sources; the
harness only tests for `END_OF_STREAM` (line 175). -/
inductive FLAC__StreamDecoderState where
  | UNINITIALIZED
  | READING_METADATA
  | SYNC_SEARCH
  | READING_FRAME
  | END_OF_STREAM
  | ABORTED
  deriving DecidableEq, Repr

/-- Which of the callback arguments of `FLAC__stream_decoder_init_stream` are non-null. -/
structure InitCallbacks where
  read_callback : Bool
  seek_callback : Bool
  tell_callback : Bool
  length_callback : Bool
  eof_callback : Bool
  write_callback : Bool
  metadata_callback : Bool
  error_callback : Bool
  deriving DecidableEq, Repr

/-- What a decoder function does with the client while it runs: it returns, or it invokes one of
the four callbacks registered by `init_stream` and goes on with what the callback gave back. A
read callback gives back the bytes it wrote, the byte count and the status. The decoder reaches
the Codec through these callbacks only. Every decoder function is taken to return after finitely
many callback invocations. -/
inductive Interact (α : Type) where
  | ret (a : α) : Interact α
  | read (bytes : Nat)
      (k : List FLAC__byte → Nat → FLAC__StreamDecoderReadStatus → Interact α) : Interact α
  | write (k : FLAC__StreamDecoderWriteStatus → Interact α) : Interact α
  | error (k : Interact α) : Interact α
  | metadata (k : Interact α) : Interact α

/-- The functions of `FLAC/stream_decoder.h` the harness calls, on a decoder object of type `D`:
the decoder library is a parameter of the harness. `new` is `none` when
`FLAC__stream_decoder_new` returns a null pointer. Every function but `new` and `get_state` may
invoke callbacks, also those called before `init_stream` has registered any: this only adds
behaviours. -/
structure StreamDecoderApi (D : Type) where
  new : Option D
  delete : D → Interact Unit
  set_md5_checking : D → Bool → Interact (Bool × D)
  set_metadata_respond : D → FLAC__MetadataType → Interact (Bool × D)
  set_metadata_respond_application : D → String → Interact (Bool × D)
  set_metadata_respond_all : D → Interact (Bool × D)
  set_metadata_ignore : D → FLAC__MetadataType → Interact (Bool × D)
  set_metadata_ignore_application : D → String → Interact (Bool × D)
  set_metadata_ignore_all : D → Interact (Bool × D)
  get_state : D → FLAC__StreamDecoderState
  init_stream : D → InitCallbacks → Interact (FLAC__StreamDecoderInitStatus × D)
  finish : D → Interact (Bool × D)
  process_single : D → Interact (Bool × D)
  process_until_end_of_metadata : D → Interact (Bool × D)
  process_until_end_of_stream : D → Interact (Bool × D)
  skip_single_frame : D → Interact (Bool × D)
  seek_absolute : D → Nat → Interact (Bool × D)

/-- The member functions of `FuzzedDataProvider` the harness calls; the class comes from
`fuzzer/FuzzedDataProvider.h`, outside the sources, and is a parameter of the harness.
`PickValueInArray n` picks an index into an array of `n + 1` elements; `ConsumeIntegral_uint64`
is `ConsumeIntegral<uint64_t>`. -/
structure FdpApi where
  ConsumeBool : FuzzedDataProvider → Bool × FuzzedDataProvider
  PickValueInArray : (n : Nat) → FuzzedDataProvider → Fin (n + 1) × FuzzedDataProvider
  ConsumeIntegral_uint64 : FuzzedDataProvider → Nat × FuzzedDataProvider

/-! ## Traces -/

/-- One invocation of a harness callback, with what it returned. -/
inductive CallbackEvent where
  | read (requested delivered : Nat) (status : FLAC__StreamDecoderReadStatus)
  | write (status : FLAC__StreamDecoderWriteStatus)
  | error
  | metadata
  deriving DecidableEq, Repr

/-- A call the harness makes on the decoder, with its arguments. -/
inductive ApiCall where
  | new
  | delete
  | set_md5_checking (value : Bool)
  | set_metadata_respond (type : FLAC__MetadataType)
  | set_metadata_respond_application (id : String)
  | set_metadata_respond_all
  | set_metadata_ignore (type : FLAC__MetadataType)
  | set_metadata_ignore_application (id : String)
  | set_metadata_ignore_all
  | get_state
  | init_stream (callbacks : InitCallbacks)
  | finish
  | process_single
  | process_until_end_of_metadata
  | process_until_end_of_stream
  | skip_single_frame
  | seek_absolute (sample : Nat)
  deriving DecidableEq, Repr

/-- What a call on the decoder returned; `unreturned` when a callback ran into undefined
behaviour before the call came back. -/
inductive Ret where
  | void
  | pointer (nonNull : Bool)
  | bool (b : Bool)
  | init (status : FLAC__StreamDecoderInitStatus)
  | state (s : FLAC__StreamDecoderState)
  | unreturned
  deriving DecidableEq, Repr

/-- A call on the decoder, the callbacks the decoder invoked while it ran, and its result. -/
structure Event where
  call : ApiCall
  callbacks : List CallbackEvent
  ret : Ret
  deriving DecidableEq, Repr

/-- How a harness function ended: it returned `a`, the loop budget ran out, or a read went outside
the input (or the decoder pointer was null in a call). -/
inductive Res (α : Type) where
  | done (a : α)
  | outOfFuel
  | fault

/-- A run of a harness function: the calls made on the decoder, in order, and how it ended. -/
structure Exec (α : Type) where
  trace : List Event
  res : Res α

/-- The run that returns at once. -/
def Exec.pure {α : Type} (a : α) : Exec α := ⟨[], .done a⟩

/-- Sequencing: the second part runs if the first one returned. -/
def Exec.bind {α β : Type} (x : Exec α) (f : α → Exec β) : Exec β :=
  match x.res with
  | .done a => ⟨x.trace ++ (f a).trace, (f a).res⟩
  | .outOfFuel => ⟨x.trace, .outOfFuel⟩
  | .fault => ⟨x.trace, .fault⟩

/-- Run a decoder function against the Codec: each callback invocation is answered by the method
of the Codec it is bound to in `initDecoder`. Gives the callback invocations and, unless a read
ran outside the input, the result and the Codec afterwards. -/
def Interact.run {α D : Type} :
    Interact α → Codec D → List CallbackEvent × Option (α × Codec D)
  | .ret a, c => ([], some (a, c))
  | .read bytes k, c =>
    match readCallback c bytes with
    | none => ([], none)
    | some r =>
      let rest := Interact.run (k r.buffer r.bytes r.status) r.codec
      (.read bytes r.bytes r.status :: rest.1, rest.2)
  | .write k, c =>
    let rest := Interact.run (k (writeCallback c)) c
    (.write (writeCallback c) :: rest.1, rest.2)
  | .error k, c =>
    let rest := Interact.run k c
    (.error :: rest.1, rest.2)
  | .metadata k, c =>
    let rest := Interact.run k c
    (.metadata :: rest.1, rest.2)

/-- The harness calls the decoder function `f` on `mDecoder`. -/
def apiCall {D R : Type} (c : Codec D) (call : ApiCall) (toRet : R → Ret)
    (f : D → Interact (R × D)) : Exec (R × Codec D) :=
  match c.mDecoder with
  | none => ⟨[], .fault⟩
  | some d =>
    match (f d).run c with
    | (cbs, none) => ⟨[⟨call, cbs, .unreturned⟩], .fault⟩
    | (cbs, some ((r, d'), c')) =>
      ⟨[⟨call, cbs, toRet r⟩], .done (r, { c' with mDecoder := some d' })⟩

/-! ## The harness -/

/-- The callback arguments `initDecoder` passes to `FLAC__stream_decoder_init_stream`:
`read_callback, nullptr, nullptr, nullptr, nullptr, write_callback, metadata_callback,
error_callback`. -/
def harnessCallbacks : InitCallbacks :=
  { read_callback := true
    seek_callback := false
    tell_callback := false
    length_callback := false
    eof_callback := false
    write_callback := true
    metadata_callback := true
    error_callback := true }

/-- The method `Codec::initDecoder`. -/
def initDecoder {D : Type} (api : StreamDecoderApi D) (F : FdpApi) (c : Codec D) :
    Exec (Bool × Codec D) :=
  Exec.bind ⟨[⟨.new, [], .pointer api.new.isSome⟩], .done { c with mDecoder := api.new }⟩ fun c =>
  if c.mDecoder.isNone then Exec.pure (false, c) else
  Exec.bind (apiCall c .set_metadata_ignore_all .bool api.set_metadata_ignore_all) fun r =>
  Exec.bind (apiCall r.2 (.set_md5_checking true) .bool
    (fun d => api.set_md5_checking d true)) fun r =>
  let b := F.ConsumeBool r.2.mFdp
  let c := { r.2 with mFdp := b.2 }
  Exec.bind
    (if b.1 then
      let t := F.PickValueInArray 7 c.mFdp
      let c := { c with mFdp := t.2 }
      Exec.bind (apiCall c (.set_metadata_ignore (kMetadataTypes t.1)) .bool
        (fun d => api.set_metadata_ignore d (kMetadataTypes t.1))) fun r => Exec.pure r.2
    else Exec.pure c) fun c =>
  let b := F.ConsumeBool c.mFdp
  let c := { c with mFdp := b.2 }
  Exec.bind
    (if b.1 then
      Exec.bind (apiCall c .skip_single_frame .bool api.skip_single_frame) fun r =>
        Exec.pure r.2
    else Exec.pure c) fun c =>
  let b := F.ConsumeBool c.mFdp
  let c := { c with mFdp := b.2 }
  Exec.bind
    (if b.1 then
      let t := F.PickValueInArray 7 c.mFdp
      let c := { c with mFdp := t.2 }
      Exec.bind (apiCall c (.set_metadata_respond (kMetadataTypes t.1)) .bool
        (fun d => api.set_metadata_respond d (kMetadataTypes t.1))) fun r => Exec.pure r.2
    else
      let i := F.PickValueInArray 2 c.mFdp
      let c := { c with mFdp := i.2 }
      let j := F.PickValueInArray 2 c.mFdp
      let c := { c with mFdp := j.2 }
      Exec.bind (apiCall c (.set_metadata_ignore_application (kMetadataIDs i.1)) .bool
        (fun d => api.set_metadata_ignore_application d (kMetadataIDs i.1))) fun r =>
      Exec.bind (apiCall r.2 (.set_metadata_respond_application (kMetadataIDs j.1)) .bool
        (fun d => api.set_metadata_respond_application d (kMetadataIDs j.1))) fun r =>
      Exec.pure r.2) fun c =>
  Exec.bind (apiCall c (.init_stream harnessCallbacks) .init
    (fun d => api.init_stream d harnessCallbacks)) fun r =>
  if r.1 ≠ .OK then Exec.pure (false, r.2) else
  let b := F.ConsumeBool r.2.mFdp
  let c := { r.2 with mFdp := b.2 }
  Exec.bind
    (if b.1 then
      Exec.bind (apiCall c .set_metadata_respond_all .bool api.set_metadata_respond_all)
        fun r => Exec.pure r.2
    else Exec.pure c) fun c =>
  let b := F.ConsumeBool c.mFdp
  let c := { c with mFdp := b.2 }
  Exec.bind
    (if b.1 then
      let x := F.ConsumeIntegral_uint64 c.mFdp
      let c := { c with mFdp := x.2 }
      Exec.bind (apiCall c (.seek_absolute (x.1 % 2 ^ 64)) .bool
        (fun d => api.seek_absolute d (x.1 % 2 ^ 64))) fun r => Exec.pure r.2
    else Exec.pure c) fun c =>
  Exec.pure (true, c)

/-- How the `while` loop of `decodeFrames` was left: through the `return` inside it, or because
its guard `mBufferPos <= mBufferLen` was false. -/
inductive LoopExit where
  | returned
  | guardFalse
  deriving DecidableEq, Repr

/-- The `while (mBufferPos <= mBufferLen)` loop of `decodeFrames`, cut off after `fuel`
iterations. -/
def decodeLoop {D : Type} (api : StreamDecoderApi D) : Nat → Codec D → Exec (LoopExit × Codec D)
  | 0, _ => ⟨[], .outOfFuel⟩
  | fuel + 1, c =>
    if c.mBufferPos ≤ c.mBufferLen then
      Exec.bind (apiCall c .process_single .bool api.process_single) fun r =>
      Exec.bind (apiCall r.2 .get_state .state
        (fun d => Interact.ret (api.get_state d, d))) fun s =>
      if s.1 = .END_OF_STREAM then Exec.pure (.returned, s.2)
      else decodeLoop api fuel s.2
    else Exec.pure (.guardFalse, c)

/-- The method `Codec::decodeFrames`, its loop cut off after `fuel` iterations. -/
def decodeFrames {D : Type} (api : StreamDecoderApi D) (F : FdpApi) (fuel : Nat) (c : Codec D) :
    Exec (Codec D) :=
  let b := F.ConsumeBool c.mFdp
  let c := { c with mFdp := b.2 }
  if b.1 then
    Exec.bind (apiCall c .process_until_end_of_metadata .bool
      api.process_until_end_of_metadata) fun r =>
    if r.1 = false then Exec.pure r.2 else
    Exec.bind (decodeLoop api fuel r.2) fun l =>
    match l.1 with
    | .returned => Exec.pure l.2
    | .guardFalse =>
      Exec.bind (apiCall l.2 .finish .bool api.finish) fun r => Exec.pure r.2
  else
    Exec.bind (apiCall c .process_until_end_of_stream .bool
      api.process_until_end_of_stream) fun r =>
    Exec.bind (apiCall r.2 .finish .bool api.finish) fun r => Exec.pure r.2

/-- The method `Codec::deInitDecoder`, which the destructor calls. -/
def deInitDecoder {D : Type} (api : StreamDecoderApi D) (c : Codec D) : Exec (Codec D) :=
  match c.mDecoder with
  | none => Exec.pure c
  | some d =>
    match (api.delete d).run c with
    | (cbs, none) => ⟨[⟨.delete, cbs, .unreturned⟩], .fault⟩
    | (cbs, some (_, c')) => ⟨[⟨.delete, cbs, .void⟩], .done c'⟩

/-- The entry point `LLVMFuzzerTestOneInput(data, size)`; the Codec is destroyed when the
function returns. -/
def LLVMFuzzerTestOneInput {D : Type} (api : StreamDecoderApi D) (F : FdpApi) (fuel : Nat)
    (data : Option (List FLAC__byte)) (size : Nat) : Exec Nat :=
  if size = 0 then Exec.pure 0 else
  Exec.bind (initDecoder api F (Codec.new data size)) fun r =>
  Exec.bind (if r.1 then decodeFrames api F fuel r.2 else Exec.pure r.2) fun c =>
  Exec.bind (deInitDecoder api c) fun _ =>
  Exec.pure 0

/-! ## A decoder after the specification -/

/-- Sequencing of decoder actions. -/
def Interact.bind {α β : Type} : Interact α → (α → Interact β) → Interact β
  | .ret a, f => f a
  | .read bytes k, f => .read bytes (fun buf n st => Interact.bind (k buf n st) f)
  | .write k, f => .write (fun st => Interact.bind (k st) f)
  | .error k, f => .error (Interact.bind k f)
  | .metadata k, f => .metadata (Interact.bind k f)

/-- Modelled from the spec: the `DecoderState` of section 3 (phase, byte position, bytes
consumed, last sample, digest state), whether the byte source is seekable (section 4.1) and the
configuration surface of section 6 (respond list, single-frame mode, digest verification). The
decoder library itself is absent from the sources. -/
structure DecoderState where
  phase : FLAC__StreamDecoderState
  bytePosition : Nat
  bytesConsumed : Nat
  lastSample : Nat
  digest : Nat
  seekable : Bool
  respondTypes : List FLAC__MetadataType
  respondApplications : List String
  singleFrame : Bool
  digestChecking : Bool
  deriving DecidableEq, Repr

/-- Modelled from the spec: the sub-steps the specification leaves out of scope (section 1), as
parameters of the decoder: whether allocation succeeds, the parsing of one metadata block or one
frame (`unit`), the seek engine of section 4.5, the digest comparison of `finish`, and a bound
on the number of units of a stream. -/
structure DecoderParts where
  allocates : Bool
  unit : DecoderState → Interact (Bool × DecoderState)
  seekEngine : DecoderState → Nat → Interact (Bool × DecoderState)
  finishDigest : DecoderState → Bool
  maxUnits : Nat

/-- Modelled from the spec: a decoder as `FLAC__stream_decoder_new` returns it, in state
`UNINITIALIZED`, with the default policy of section 4.2 (deliver all but padding). -/
def DecoderState.fresh : DecoderState :=
  { phase := .UNINITIALIZED
    bytePosition := 0
    bytesConsumed := 0
    lastSample := 0
    digest := 0
    seekable := false
    respondTypes :=
      [.STREAMINFO, .APPLICATION, .SEEKTABLE, .VORBIS_COMMENT, .CUESHEET, .PICTURE, .UNDEFINED]
    respondApplications := []
    singleFrame := false
    digestChecking := false }

/-- Modelled from the spec: the terminal states `END_OF_STREAM` and `ABORTED` of section 4.1. -/
def FLAC__StreamDecoderState.terminal : FLAC__StreamDecoderState → Bool
  | .END_OF_STREAM => true
  | .ABORTED => true
  | _ => false

/-- Modelled from the spec: a configuration call (section 6: set only before the decoder is
started); it takes effect on an `UNINITIALIZED` decoder and is refused afterwards. -/
def DecoderState.configure (d : DecoderState) (f : DecoderState → DecoderState) :
    Interact (Bool × DecoderState) :=
  if d.phase = .UNINITIALIZED then .ret (true, f d) else .ret (false, d)

/-- Modelled from the spec: `processSingleUnit` of section 4.1: one metadata block or one frame,
and a no-op that returns the current state once the state is terminal. -/
def DecoderState.processSingleUnit (P : DecoderParts) (d : DecoderState) :
    Interact (Bool × DecoderState) :=
  if d.phase.terminal then .ret (true, d) else P.unit d

/-- Modelled from the spec: the loop of `processUntilEndOfMetadata` and
`processUntilEndOfStream` of section 4.1: the unit step, repeated while `continues` holds of the
state. -/
def DecoderState.processWhile (P : DecoderParts) (continues : DecoderState → Bool) :
    Nat → DecoderState → Interact (Bool × DecoderState)
  | 0, d => .ret (false, d)
  | n + 1, d =>
    if continues d then
      Interact.bind (DecoderState.processSingleUnit P d) fun r =>
        if r.1 then DecoderState.processWhile P continues n r.2 else .ret (false, r.2)
    else .ret (true, d)

/-- Modelled from the spec: the public operations of the decoder state machine of section 4.1
(`FLAC__stream_decoder_*`, absent from the sources): `init_stream` is `initialize()`,
`seek_absolute` is `seekToSample`, which is valid only when the byte source is seekable and the
state is neither `UNINITIALIZED` nor `ABORTED` and otherwise fails and leaves the decoder as it
is. The byte source is seekable when `init_stream` was given a seek callback. -/
def specDecoder (P : DecoderParts) : StreamDecoderApi DecoderState :=
  { new := if P.allocates then some DecoderState.fresh else none
    delete := fun _ => .ret ()
    set_md5_checking := fun d v => d.configure fun d => { d with digestChecking := v }
    set_metadata_respond := fun d t =>
      d.configure fun d => { d with respondTypes := t :: d.respondTypes }
    set_metadata_respond_application := fun d a =>
      d.configure fun d => { d with respondApplications := a :: d.respondApplications }
    set_metadata_respond_all := fun d =>
      d.configure fun d => { d with respondTypes := List.ofFn kMetadataTypes }
    set_metadata_ignore := fun d t =>
      d.configure fun d => { d with respondTypes := d.respondTypes.filter (fun x => x ≠ t) }
    set_metadata_ignore_application := fun d a =>
      d.configure fun d =>
        { d with respondApplications := d.respondApplications.filter (fun x => x ≠ a) }
    set_metadata_ignore_all := fun d =>
      d.configure fun d => { d with respondTypes := [], respondApplications := [] }
    get_state := fun d => d.phase
    init_stream := fun d cbs =>
      if d.phase ≠ .UNINITIALIZED then .ret (.ALREADY_INITIALIZED, d)
      else if cbs.read_callback && cbs.write_callback && cbs.metadata_callback
          && cbs.error_callback then
        .ret (.OK, { d with phase := .READING_METADATA, seekable := cbs.seek_callback })
      else .ret (.INVALID_CALLBACKS, d)
    finish := fun d => .ret (P.finishDigest d, { d with phase := .UNINITIALIZED })
    process_single := fun d => d.processSingleUnit P
    process_until_end_of_metadata := fun d =>
      DecoderState.processWhile P (fun d => d.phase = .READING_METADATA) P.maxUnits d
    process_until_end_of_stream := fun d =>
      DecoderState.processWhile P (fun d => !d.phase.terminal) P.maxUnits d
    skip_single_frame := fun d => d.configure fun d => { d with singleFrame := true }
    seek_absolute := fun d target =>
      if d.seekable && d.phase ≠ .UNINITIALIZED && d.phase ≠ .ABORTED then P.seekEngine d target
      else .ret (false, d) }

/-! ## Concrete collaborators, for evaluating the harness -/

/-- The loop of `ConsumeIntegralInRange` of LLVM's `FuzzedDataProvider.h` (not part of the
harness sources) for an integer type of `k` bytes: while `range >> offset` is positive and bytes
remain, the last remaining byte is shifted into the result. Gives the result and the bytes
remaining. -/
def llvmConsume (data : List FLAC__byte) (range : Nat) : Nat → Nat → Nat → Nat → Nat × Nat
  | 0, _, result, remaining => (result, remaining)
  | k + 1, offset, result, remaining =>
    if range >>> offset > 0 ∧ remaining ≠ 0 then
      llvmConsume data range k (offset + 8)
        (((result <<< 8) ||| (data.getD (remaining - 1) 0).val) % 2 ^ 64) (remaining - 1)
    else (result, remaining)

/-- A `FuzzedDataProvider` after LLVM's `FuzzedDataProvider.h`: `ConsumeBool` is the low bit of a
consumed byte, `PickValueInArray` an index in range taken with `ConsumeIntegralInRange`. -/
def llvmFdp : FdpApi :=
  { ConsumeBool := fun f =>
      let r := llvmConsume (f.data_ptr_.getD []) 255 1 0 0 f.remaining_bytes_
      (r.1 % 256 % 2 = 1, { f with remaining_bytes_ := r.2 })
    PickValueInArray := fun n f =>
      let r := llvmConsume (f.data_ptr_.getD []) n 8 0 0 f.remaining_bytes_
      (⟨r.1 % (n + 1), Nat.mod_lt _ (Nat.succ_pos n)⟩, { f with remaining_bytes_ := r.2 })
    ConsumeIntegral_uint64 := fun f =>
      let r := llvmConsume (f.data_ptr_.getD []) (2 ^ 64 - 1) 8 0 0 f.remaining_bytes_
      (r.1, { f with remaining_bytes_ := r.2 }) }

/-- A stand-in for the parsing sub-steps: a unit is four bytes; the state follows the status of
the read (`ABORT` aborts, an empty read ends the stream). -/
def demoParts : DecoderParts :=
  { allocates := true
    unit := fun d =>
      .read 4 fun _ n st =>
        match st with
        | .ABORT => .ret (false, { d with phase := .ABORTED })
        | .END_OF_STREAM => .ret (true, { d with phase := .END_OF_STREAM })
        | .CONTINUE =>
          .write fun w =>
            match w with
            | .ABORT => .ret (false, { d with phase := .ABORTED })
            | .CONTINUE =>
              .ret (true, { d with phase := .SYNC_SEARCH
                                   bytePosition := d.bytePosition + n
                                   bytesConsumed := d.bytesConsumed + n })
    seekEngine := fun d _ => .ret (true, { d with phase := .SYNC_SEARCH })
    finishDigest := fun _ => true
    maxUnits := 64 }

/-- A Codec over the five bytes `10, 20, 30, 40, 50` with one byte already delivered. -/
def demoCodec : Codec DecoderState :=
  { Codec.new (some [10, 20, 30, 40, 50]) 5 with mBufferPos := 1 }

/-- A decoder in state `ABORTED`. -/
def abortedDecoder : DecoderState := { DecoderState.fresh with phase := .ABORTED }

/-- A decoder that has been started. -/
def startedDecoder : DecoderState := { DecoderState.fresh with phase := .READING_METADATA }

/-- A Codec over the three bytes `1, 2, 3` whose decoder is in state `ABORTED`. -/
def abortedCodec : Codec DecoderState :=
  { (Codec.new (some [1, 2, 3]) 3 : Codec DecoderState) with mDecoder := some abortedDecoder }

/-- A Codec over the three bytes `1, 2, 3` with a decoder that has been started. -/
def startedCodec : Codec DecoderState :=
  { (Codec.new (some [1, 2, 3]) 3 : Codec DecoderState) with mDecoder := some startedDecoder }

/-- A fifteen-byte fuzz input. -/
def demoInput : List FLAC__byte := [1, 2, 3, 4, 5, 6, 7, 8, 9, 1, 1, 1, 0, 1, 1]

/-- The calls `initDecoder` makes on the input `demoInput` before `init_stream`. -/
def demoBeforeInit : List Event :=
  [⟨.new, [], .pointer true⟩, ⟨.set_metadata_ignore_all, [], .bool true⟩,
    ⟨.set_md5_checking true, [], .bool true⟩, ⟨.set_metadata_ignore .STREAMINFO, [], .bool true⟩,
    ⟨.set_metadata_respond .STREAMINFO, [], .bool true⟩]

/-- The `init_stream` call of `initDecoder` on the input `demoInput`. -/
def demoInit : Event := ⟨.init_stream harnessCallbacks, [], .init .OK⟩

/-- The calls `initDecoder` makes on the input `demoInput` after `init_stream`. -/
def demoAfterInit : List Event :=
  [⟨.set_metadata_respond_all, [], .bool false⟩,
    ⟨.seek_absolute 578437695752307201, [], .bool false⟩]

/-! ## Predicates on runs -/

/-- The call is one of the configuration calls: a metadata respond or ignore setting (by type, by
application id, or for all types), the single-frame call, or the digest-checking switch. -/
def ApiCall.isConfiguration : ApiCall → Bool
  | .set_md5_checking _ => true
  | .set_metadata_respond _ => true
  | .set_metadata_respond_application _ => true
  | .set_metadata_respond_all => true
  | .set_metadata_ignore _ => true
  | .set_metadata_ignore_application _ => true
  | .set_metadata_ignore_all => true
  | .skip_single_frame => true
  | _ => false

/-- The call is `FLAC__stream_decoder_init_stream`. -/
def ApiCall.isInitStream : ApiCall → Bool
  | .init_stream _ => true
  | _ => false

/-- The place of a call in `initDecoder`: creation, the configuration calls that come before
`init_stream`, `init_stream`, `set_metadata_respond_all`, `seek_absolute`; the processing calls
come last. -/
def ApiCall.stage : ApiCall → Nat
  | .new => 0
  | .set_md5_checking _ => 1
  | .set_metadata_respond _ => 1
  | .set_metadata_respond_application _ => 1
  | .set_metadata_ignore _ => 1
  | .set_metadata_ignore_application _ => 1
  | .set_metadata_ignore_all => 1
  | .skip_single_frame => 1
  | .init_stream _ => 2
  | .set_metadata_respond_all => 3
  | .seek_absolute _ => 4
  | _ => 5

/-- The calls `initDecoder` can make: the creation, a configuration call, `init_stream` with the
callbacks of `harnessCallbacks`, or `seek_absolute` with a 64-bit target. -/
def ApiCall.inInitDecoder (call : ApiCall) : Prop :=
  call = .new ∨ call.isConfiguration = true ∨ call = .init_stream harnessCallbacks ∨
    ∃ t, t < 2 ^ 64 ∧ call = .seek_absolute t

/-- The callback did not return an abort status: a read returned `END_OF_STREAM` when it
delivered no byte and `CONTINUE` otherwise, a write returned `CONTINUE`. -/
def CallbackEvent.NonAbort : CallbackEvent → Prop
  | .read _ delivered status =>
    status = if delivered = 0 then .END_OF_STREAM else .CONTINUE
  | .write status => status = .CONTINUE
  | .error => True
  | .metadata => True

/-- Every event of the run satisfies `E`, and if the run returned, the result satisfies `Q`. -/
def Exec.Sat {α : Type} (x : Exec α) (E : Event → Prop) (Q : α → Prop) : Prop :=
  (∀ e ∈ x.trace, E e) ∧ ∀ a, x.res = .done a → Q a

/-- Every event of the run satisfies `E`, and the run returned a result that satisfies `Q`. -/
def Exec.SatT {α : Type} (x : Exec α) (E : Event → Prop) (Q : α → Prop) : Prop :=
  (∀ e ∈ x.trace, E e) ∧ ∃ a, x.res = .done a ∧ Q a

/-- The calls of the run come in the order of their stages, all between `lo` and `hi`. -/
def Exec.Staged {α : Type} (x : Exec α) (lo hi : Nat) : Prop :=
  x.trace.Pairwise (fun a b => a.call.stage ≤ b.call.stage) ∧
    ∀ e ∈ x.trace, lo ≤ e.call.stage ∧ e.call.stage ≤ hi

/-- The Codec reads from a non-null, non-empty buffer. -/
def Codec.NonEmpty {D : Type} (c : Codec D) : Prop :=
  c.mBuffer ≠ none ∧ c.mBufferLen ≠ 0

/-- The decoder has consumed no byte and has no seekable byte source. -/
def DecoderState.Unread (d : DecoderState) : Prop :=
  d.seekable = false ∧ d.bytePosition = 0 ∧ d.bytesConsumed = 0

/-- The Codec has delivered no byte, and holds a decoder that has consumed none. -/
def Codec.AtStart (c : Codec DecoderState) : Prop :=
  c.mBufferPos = 0 ∧ ∃ d, c.mDecoder = some d ∧ d.Unread

/-- The call invoked no callback; if it is `init_stream` it was given no seek, tell, length or eof
callback; if it is `seek_absolute` its target is a 64-bit value and it returned `false`. -/
def Event.Quiet (e : Event) : Prop :=
  e.callbacks = [] ∧
  (∀ cbs, e.call = .init_stream cbs →
    cbs.seek_callback = false ∧ cbs.tell_callback = false ∧ cbs.length_callback = false ∧
      cbs.eof_callback = false) ∧
  (∀ t, e.call = .seek_absolute t → t < 2 ^ 64 ∧ e.ret = .bool false)

/-! ## Lemmas on memory and `size_t` arithmetic -/

theorem size_sub_of_le {a b : Nat} (hab : b ≤ a) (ha : a < SIZE_MOD) : size_sub a b = a - b := by
  unfold size_sub
  have hb : b % SIZE_MOD = b := Nat.mod_eq_of_lt (lt_of_le_of_lt hab ha)
  rw [hb]
  have : a + SIZE_MOD - b = (a - b) + SIZE_MOD := by omega
  rw [this, Nat.add_mod_right]
  exact Nat.mod_eq_of_lt (lt_of_le_of_lt (Nat.sub_le a b) ha)

theorem size_add_of_lt {a b : Nat} (h : a + b < SIZE_MOD) : size_add a b = a + b :=
  Nat.mod_eq_of_lt h

theorem memcpy_of_le (src : List FLAC__byte) (n off : Nat) (h : off + n ≤ src.length) :
    memcpy src off n = some ((src.drop off).take n) := by
  induction n generalizing off with
  | zero => simp [memcpy]
  | succ n ih =>
    have hlt : off < src.length := by omega
    have hih := ih (off + 1) (by omega)
    rw [memcpy, List.getElem?_eq_getElem hlt]
    simp only [hih]
    rw [List.drop_eq_getElem_cons hlt, List.take_succ_cons]


/-- The copy is defined exactly when every source index it touches lies inside the array. -/
theorem memcpy_isSome_iff (src : List FLAC__byte) (n off : Nat) :
    (memcpy src off n).isSome = true ↔ ∀ i ∈ memcpyIndices off n, i < src.length := by
  induction n generalizing off with
  | zero => simp [memcpy, memcpyIndices]
  | succ n ih =>
    have hih := ih (off + 1)
    simp only [memcpyIndices, List.mem_range'_1] at hih ⊢
    rw [memcpy]
    by_cases hlt : off < src.length
    · rw [List.getElem?_eq_getElem hlt]
      simp only
      rcases hm : memcpy src (off + 1) n with _ | bs
      · rw [hm] at hih
        simp only [Option.isSome_none, Bool.false_eq_true, false_iff, not_forall] at hih ⊢
        obtain ⟨i, hi, hge⟩ := hih
        exact ⟨i, by omega, hge⟩
      · rw [hm] at hih
        simp only [Option.isSome_some, true_iff] at hih ⊢
        intro i hi
        by_cases h0 : i = off
        · omega
        · exact hih i (by omega)
    · rw [List.getElem?_eq_none (by omega)]
      simp only [Option.isSome_none, Bool.false_eq_true, false_iff, not_forall]
      exact ⟨off, by omega, hlt⟩

/-- What `readCallback` does on a non-empty input with the read position inside it. -/
theorem readCallback_eq {D : Type} (c : Codec D) (src : List FLAC__byte) (n : Nat)
    (hbuf : c.mBuffer = some src) (hlen : src.length = c.mBufferLen) (hne : c.mBufferLen ≠ 0)
    (hsz : c.mBufferLen < SIZE_MOD) (hpos : c.mBufferPos ≤ c.mBufferLen) :
    readCallback c n = some
      { buffer := (src.drop c.mBufferPos).take (min n (c.mBufferLen - c.mBufferPos))
        bytes := min n (c.mBufferLen - c.mBufferPos)
        status := if min n (c.mBufferLen - c.mBufferPos) = 0 then .END_OF_STREAM else .CONTINUE
        reads := memcpyIndices c.mBufferPos (min n (c.mBufferLen - c.mBufferPos))
        codec := { c with mBufferPos := c.mBufferPos + min n (c.mBufferLen - c.mBufferPos) } } := by
  have hk : (if n > size_sub c.mBufferLen c.mBufferPos then size_sub c.mBufferLen c.mBufferPos
      else n) = min n (c.mBufferLen - c.mBufferPos) := by
    rw [size_sub_of_le hpos hsz]
    split <;> omega
  have hadd : size_add c.mBufferPos (min n (c.mBufferLen - c.mBufferPos))
      = c.mBufferPos + min n (c.mBufferLen - c.mBufferPos) :=
    size_add_of_lt (by omega)
  have hcp := memcpy_of_le src (min n (c.mBufferLen - c.mBufferPos)) c.mBufferPos (by omega)
  unfold readCallback
  simp only [hbuf, if_neg hne, hk, hcp, hadd]

/-- The read position never leaves the input: `readCallback` keeps a well-formed Codec
well-formed, and changes nothing but `mBufferPos`. -/
theorem readCallback_WF {D : Type} (c : Codec D) (n : Nat) (hwf : c.WF) :
    ∃ r, readCallback c n = some r ∧ r.codec.WF ∧ r.codec.mBuffer = c.mBuffer ∧
      r.codec.mBufferLen = c.mBufferLen ∧ r.codec.mFdp = c.mFdp ∧
      r.codec.mDecoder = c.mDecoder ∧ (∀ i ∈ r.reads, i < c.mBufferLen) ∧
      (r.status = .ABORT ↔ (c.mBuffer = none ∨ c.mBufferLen = 0)) := by
  obtain ⟨hpos, hsz, hsrc⟩ := hwf
  rcases hbuf : c.mBuffer with _ | src
  · have h : readCallback c n
        = some { buffer := [], bytes := 0, status := .ABORT, reads := [], codec := c } := by
      simp [readCallback, hbuf]
    refine ⟨_, h, ⟨hpos, hsz, hsrc⟩, hbuf, rfl, rfl, rfl, ?_, ?_⟩ <;> simp
  · by_cases hne : c.mBufferLen = 0
    · have h : readCallback c n
          = some { buffer := [], bytes := 0, status := .ABORT, reads := [], codec := c } := by
        simp [readCallback, hbuf, hne]
      refine ⟨_, h, ⟨hpos, hsz, hsrc⟩, hbuf, rfl, rfl, rfl, ?_, ?_⟩ <;> simp [hne]
    · refine ⟨_, readCallback_eq c src n hbuf (hsrc src hbuf) hne hsz hpos, ?_, hbuf, rfl, rfl,
        rfl, ?_, ?_⟩
      · exact ⟨by simp only; omega, hsz, hsrc⟩
      · intro i hi
        simp only [memcpyIndices, List.mem_range'_1] at hi
        omega
      · simp only [hne, or_false]
        constructor
        · intro h
          split at h <;> cases h
        · intro h
          cases h

/-- Any sequence of reads from a well-formed Codec stays inside the input. -/
theorem readMany_WF {D : Type} (reqs : List Nat) (c : Codec D) (hwf : c.WF) :
    ∃ rs c', readMany c reqs = some (rs, c') ∧ c'.WF ∧ c'.mBufferLen = c.mBufferLen ∧
      ∀ r ∈ rs, (∀ i ∈ r.reads, i < c.mBufferLen) ∧ r.codec.WF ∧
        r.codec.mBufferLen = c.mBufferLen := by
  induction reqs generalizing c with
  | nil => exact ⟨[], c, rfl, hwf, rfl, by simp⟩
  | cons n reqs ih =>
    obtain ⟨r, hr, hrwf, -, hrlen, -, -, hreads, -⟩ := readCallback_WF c n hwf
    obtain ⟨rs, c', hrs, hcwf, hclen, hall⟩ := ih r.codec hrwf
    refine ⟨r :: rs, c', by simp [readMany, hr, hrs], hcwf, by rw [hclen, hrlen], ?_⟩
    intro x hx
    rcases List.mem_cons.mp hx with rfl | hx
    · exact ⟨hreads, hrwf, hrlen⟩
    · obtain ⟨h1, h2, h3⟩ := hall x hx
      exact ⟨by rw [← hrlen]; exact h1, h2, by rw [h3, hrlen]⟩

/-- The blocks delivered by a sequence of reads, put end to end, are the next bytes of the
input. -/
theorem readMany_flatten {D : Type} (src : List FLAC__byte) (reqs : List Nat) (c : Codec D)
    (hbuf : c.mBuffer = some src) (hlen : src.length = c.mBufferLen) (hne : c.mBufferLen ≠ 0)
    (hsz : c.mBufferLen < SIZE_MOD) (hpos : c.mBufferPos ≤ c.mBufferLen) :
    ∃ rs c', readMany c reqs = some (rs, c') ∧
      (rs.map (fun r => r.buffer)).flatten
        = (src.drop c.mBufferPos).take (min reqs.sum (c.mBufferLen - c.mBufferPos)) ∧
      c'.mBufferPos = c.mBufferPos + min reqs.sum (c.mBufferLen - c.mBufferPos) := by
  induction reqs generalizing c with
  | nil => exact ⟨[], c, rfl, by simp, by simp⟩
  | cons n reqs ih =>
    obtain ⟨r, hr, hrb, hrc⟩ : ∃ r, readCallback c n = some r ∧
        r.buffer = (src.drop c.mBufferPos).take (min n (c.mBufferLen - c.mBufferPos)) ∧
        r.codec = { c with mBufferPos := c.mBufferPos + min n (c.mBufferLen - c.mBufferPos) } :=
      ⟨_, readCallback_eq c src n hbuf hlen hne hsz hpos, rfl, rfl⟩
    obtain ⟨rs, c', hrs, hcat, hfin⟩ :=
      ih { c with mBufferPos := c.mBufferPos + min n (c.mBufferLen - c.mBufferPos) }
        hbuf hlen hne hsz (by simp only; omega)
    simp only at hrs hcat hfin
    refine ⟨r :: rs, c', ?_, ?_, ?_⟩
    · simp only [readMany, hr, hrc, hrs]
    · simp only [List.map_cons, List.flatten_cons, hcat, List.sum_cons, hrb]
      have hk : min (n + reqs.sum) (c.mBufferLen - c.mBufferPos)
          = min n (c.mBufferLen - c.mBufferPos)
            + min reqs.sum (c.mBufferLen
              - (c.mBufferPos + min n (c.mBufferLen - c.mBufferPos))) := by omega
      rw [hk, List.take_add, List.drop_drop]
    · rw [hfin, List.sum_cons]
      omega

/-- Two Codecs that agree on the buffer, its length and the read position deliver the same
bytes, counts and statuses, whatever their `mFdp` and `mDecoder`. -/
theorem readMany_congr {D E : Type} (reqs : List Nat) (c₁ : Codec D) (c₂ : Codec E)
    (hbuf : c₁.mBuffer = c₂.mBuffer) (hlen : c₁.mBufferLen = c₂.mBufferLen)
    (hpos : c₁.mBufferPos = c₂.mBufferPos) :
    (readMany c₁ reqs).map (fun p => p.1.map fun r => (r.buffer, r.bytes, r.status))
      = (readMany c₂ reqs).map (fun p => p.1.map fun r => (r.buffer, r.bytes, r.status)) := by
  induction reqs generalizing c₁ c₂ with
  | nil => rfl
  | cons n reqs ih =>
    have key : (readCallback c₁ n = none ∧ readCallback c₂ n = none) ∨
        ∃ r₁ r₂, readCallback c₁ n = some r₁ ∧ readCallback c₂ n = some r₂ ∧
          r₁.buffer = r₂.buffer ∧ r₁.bytes = r₂.bytes ∧ r₁.status = r₂.status ∧
          r₁.codec.mBuffer = r₂.codec.mBuffer ∧ r₁.codec.mBufferLen = r₂.codec.mBufferLen ∧
          r₁.codec.mBufferPos = r₂.codec.mBufferPos := by
      unfold readCallback
      rw [← hbuf, ← hlen, ← hpos]
      rcases c₁.mBuffer with _ | src
      · exact Or.inr ⟨_, _, rfl, rfl, rfl, rfl, rfl, hbuf, hlen, hpos⟩
      · simp only
        split
        · exact Or.inr ⟨_, _, rfl, rfl, rfl, rfl, rfl, hbuf, hlen, hpos⟩
        · rcases memcpy src c₁.mBufferPos _ with _ | out
          · exact Or.inl ⟨rfl, rfl⟩
          · exact Or.inr ⟨_, _, rfl, rfl, rfl, rfl, rfl, rfl, rfl, rfl⟩
    rcases key with ⟨h₁, h₂⟩ | ⟨r₁, r₂, h₁, h₂, hb, hn, hs, hb', hl', hp'⟩
    · simp [readMany, h₁, h₂]
    · have := ih r₁.codec r₂.codec hb' hl' hp'
      simp only [readMany, h₁, h₂]
      rcases hm₁ : readMany r₁.codec reqs with _ | ⟨rs₁, e₁⟩ <;>
        rcases hm₂ : readMany r₂.codec reqs with _ | ⟨rs₂, e₂⟩ <;>
        simp_all

/-! ## Rules for runs -/

theorem Exec.sat_pure {α : Type} {E : Event → Prop} {Q : α → Prop} {a : α} (h : Q a) :
    (Exec.pure a).Sat E Q :=
  ⟨by simp [Exec.pure], by intro b hb; cases hb; exact h⟩

theorem Exec.sat_bind {α β : Type} {E : Event → Prop} {Q : α → Prop} {R : β → Prop}
    {x : Exec α} {f : α → Exec β} (hx : x.Sat E Q) (hf : ∀ a, Q a → (f a).Sat E R) :
    (Exec.bind x f).Sat E R := by
  obtain ⟨hxe, hxq⟩ := hx
  unfold Exec.bind
  rcases hres : x.res with a | _ | _
  · obtain ⟨hfe, hfq⟩ := hf a (hxq a hres)
    refine ⟨?_, hfq⟩
    intro e he
    rcases List.mem_append.mp he with h | h
    · exact hxe e h
    · exact hfe e h
  · exact ⟨hxe, by intro b hb; cases hb⟩
  · exact ⟨hxe, by intro b hb; cases hb⟩

theorem Exec.satT_pure {α : Type} {E : Event → Prop} {Q : α → Prop} {a : α} (h : Q a) :
    (Exec.pure a).SatT E Q :=
  ⟨by simp [Exec.pure], a, rfl, h⟩

theorem Exec.satT_bind {α β : Type} {E : Event → Prop} {Q : α → Prop} {R : β → Prop}
    {x : Exec α} {f : α → Exec β} (hx : x.SatT E Q) (hf : ∀ a, Q a → (f a).SatT E R) :
    (Exec.bind x f).SatT E R := by
  obtain ⟨hxe, a, hres, hq⟩ := hx
  obtain ⟨hfe, b, hb, hr⟩ := hf a hq
  unfold Exec.bind
  rw [hres]
  refine ⟨?_, b, hb, hr⟩
  intro e he
  rcases List.mem_append.mp he with h | h
  · exact hxe e h
  · exact hfe e h

theorem Exec.staged_pure {α : Type} {a : α} {lo hi : Nat} : (Exec.pure a).Staged lo hi :=
  ⟨by simp [Exec.pure], by simp [Exec.pure]⟩

theorem Exec.staged_bind {α β : Type} {x : Exec α} {f : α → Exec β} {lo hi : Nat} (mid : Nat)
    (hlo : lo ≤ mid) (hhi : mid ≤ hi) (hx : x.Staged lo mid) (hf : ∀ a, (f a).Staged mid hi) :
    (Exec.bind x f).Staged lo hi := by
  obtain ⟨hxp, hxb⟩ := hx
  have hweak : ∀ e ∈ x.trace, lo ≤ e.call.stage ∧ e.call.stage ≤ hi :=
    fun e he => ⟨(hxb e he).1, le_trans (hxb e he).2 hhi⟩
  unfold Exec.bind
  rcases hres : x.res with a | _ | _
  · obtain ⟨hfp, hfb⟩ := hf a
    refine ⟨List.pairwise_append.mpr ⟨hxp, hfp, ?_⟩, ?_⟩
    · intro u hu v hv
      exact le_trans (hxb u hu).2 (hfb v hv).1
    · intro e he
      rcases List.mem_append.mp he with h | h
      · exact hweak e h
      · exact ⟨le_trans hlo (hfb e h).1, (hfb e h).2⟩
  · exact ⟨hxp, hweak⟩
  · exact ⟨hxp, hweak⟩

theorem apiCall_staged {D R : Type} (c : Codec D) (call : ApiCall) (toRet : R → Ret)
    (f : D → Interact (R × D)) : (apiCall c call toRet f).Staged call.stage call.stage := by
  unfold apiCall
  rcases c.mDecoder with _ | d
  · exact ⟨by simp, by simp⟩
  · simp only
    rcases (f d).run c with ⟨cbs, _ | ⟨⟨r, d'⟩, c'⟩⟩ <;> simp [Exec.Staged]

/-! ## The callbacks under an arbitrary decoder -/

/-- A read that returns changes nothing but `mBufferPos`, and it aborts only on a null or empty
buffer. -/
theorem readCallback_frame {D : Type} (c : Codec D) (n : Nat) (r : ReadResult D)
    (h : readCallback c n = some r) :
    r.codec.mBuffer = c.mBuffer ∧ r.codec.mBufferLen = c.mBufferLen ∧ r.codec.mFdp = c.mFdp ∧
      r.codec.mDecoder = c.mDecoder ∧
      (c.NonEmpty → r.status = if r.bytes = 0 then .END_OF_STREAM else .CONTINUE) := by
  unfold readCallback at h
  rcases hbuf : c.mBuffer with _ | src
  · rw [hbuf] at h
    cases h
    exact ⟨hbuf, rfl, rfl, rfl, fun hn => absurd hbuf hn.1⟩
  · rw [hbuf] at h
    simp only at h
    split at h
    · rename_i h0
      cases h
      exact ⟨hbuf, rfl, rfl, rfl, fun hn => absurd h0 hn.2⟩
    · generalize (if n > size_sub c.mBufferLen c.mBufferPos
        then size_sub c.mBufferLen c.mBufferPos else n) = k at h
      rcases hm : memcpy src c.mBufferPos k with _ | out
      · rw [hm] at h
        cases h
      · rw [hm] at h
        cases h
        exact ⟨rfl, rfl, rfl, rfl, fun _ => rfl⟩

/-- Whatever the decoder does during a call, the Codec keeps its buffer, length,
`FuzzedDataProvider` and decoder pointer; and over a non-empty buffer no callback aborts. -/
theorem Interact.run_frame {α D : Type} (p : Interact α) (c : Codec D) :
    (c.NonEmpty → ∀ cb ∈ (p.run c).1, cb.NonAbort) ∧
    ∀ a c', (p.run c).2 = some (a, c') →
      c'.mBuffer = c.mBuffer ∧ c'.mBufferLen = c.mBufferLen ∧ c'.mFdp = c.mFdp ∧
        c'.mDecoder = c.mDecoder := by
  induction p generalizing c with
  | ret a =>
    refine ⟨by simp [Interact.run], ?_⟩
    intro b c' h
    simp only [Interact.run, Option.some.injEq, Prod.mk.injEq] at h
    obtain ⟨-, rfl⟩ := h
    exact ⟨rfl, rfl, rfl, rfl⟩
  | read n k ih =>
    simp only [Interact.run]
    rcases hr : readCallback c n with _ | r
    · exact ⟨by simp, by simp⟩
    · obtain ⟨hb, hl, hf, hd, hst⟩ := readCallback_frame c n r hr
      obtain ⟨ih1, ih2⟩ := ih r.buffer r.bytes r.status r.codec
      simp only
      refine ⟨?_, ?_⟩
      · intro hne cb hcb
        rcases List.mem_cons.mp hcb with rfl | hcb
        · exact hst hne
        · exact ih1 ⟨by rw [hb]; exact hne.1, by rw [hl]; exact hne.2⟩ cb hcb
      · intro a c' h
        obtain ⟨h1, h2, h3, h4⟩ := ih2 a c' h
        exact ⟨h1.trans hb, h2.trans hl, h3.trans hf, h4.trans hd⟩
  | write k ih =>
    simp only [Interact.run]
    obtain ⟨ih1, ih2⟩ := ih (writeCallback c) c
    refine ⟨?_, ih2⟩
    intro hne cb hcb
    rcases List.mem_cons.mp hcb with rfl | hcb
    · simp [CallbackEvent.NonAbort, writeCallback]
    · exact ih1 hne cb hcb
  | error k ih =>
    simp only [Interact.run]
    obtain ⟨ih1, ih2⟩ := ih c
    refine ⟨?_, ih2⟩
    intro hne cb hcb
    rcases List.mem_cons.mp hcb with rfl | hcb
    · trivial
    · exact ih1 hne cb hcb
  | metadata k ih =>
    simp only [Interact.run]
    obtain ⟨ih1, ih2⟩ := ih c
    refine ⟨?_, ih2⟩
    intro hne cb hcb
    rcases List.mem_cons.mp hcb with rfl | hcb
    · trivial
    · exact ih1 hne cb hcb

/-- On a well-formed Codec every decoder call comes back, and leaves the Codec well-formed. -/
theorem Interact.run_WF {α D : Type} (p : Interact α) (c : Codec D) (hwf : c.WF) :
    ∃ a c', (p.run c).2 = some (a, c') ∧ c'.WF := by
  induction p generalizing c with
  | ret a => exact ⟨a, c, rfl, hwf⟩
  | read n k ih =>
    obtain ⟨r, hr, hrwf, -⟩ := readCallback_WF c n hwf
    obtain ⟨a, c', h, hc⟩ := ih r.buffer r.bytes r.status r.codec hrwf
    exact ⟨a, c', by simp only [Interact.run, hr, h], hc⟩
  | write k ih =>
    obtain ⟨a, c', h, hc⟩ := ih (writeCallback c) c hwf
    exact ⟨a, c', by simp only [Interact.run, h], hc⟩
  | error k ih =>
    obtain ⟨a, c', h, hc⟩ := ih c hwf
    exact ⟨a, c', by simp only [Interact.run, h], hc⟩
  | metadata k ih =>
    obtain ⟨a, c', h, hc⟩ := ih c hwf
    exact ⟨a, c', by simp only [Interact.run, h], hc⟩

theorem Exec.sat_seq {α β : Type} {E : Event → Prop} (Q : α → Prop) {R : β → Prop}
    {x : Exec α} {f : α → Exec β} (hx : x.Sat E Q) (hf : ∀ a, Q a → (f a).Sat E R) :
    (Exec.bind x f).Sat E R :=
  Exec.sat_bind hx hf

theorem Exec.satT_seq {α β : Type} {E : Event → Prop} (Q : α → Prop) {R : β → Prop}
    {x : Exec α} {f : α → Exec β} (hx : x.SatT E Q) (hf : ∀ a, Q a → (f a).SatT E R) :
    (Exec.bind x f).SatT E R :=
  Exec.satT_bind hx hf

/-- Over a non-empty buffer no callback aborts during a call on the decoder. -/
theorem apiCall_nonabort {D R : Type} (c : Codec D) (hne : c.NonEmpty) (call : ApiCall)
    (toRet : R → Ret) (f : D → Interact (R × D)) :
    (apiCall c call toRet f).Sat (fun e => ∀ cb ∈ e.callbacks, cb.NonAbort)
      (fun rc => rc.2.NonEmpty) := by
  unfold apiCall
  rcases c.mDecoder with _ | d
  · exact ⟨by simp, by intro a h; cases h⟩
  · simp only
    obtain ⟨h1, h2⟩ := Interact.run_frame (f d) c
    rcases hrun : (f d).run c with ⟨cbs, _ | ⟨⟨r, d'⟩, c'⟩⟩
    · rw [hrun] at h1
      refine ⟨?_, by intro a h; cases h⟩
      intro e he
      simp only [List.mem_singleton] at he
      subst he
      exact h1 hne
    · rw [hrun] at h1 h2
      obtain ⟨hb, hl, -, -⟩ := h2 _ _ rfl
      refine ⟨?_, ?_⟩
      · intro e he
        simp only [List.mem_singleton] at he
        subst he
        exact h1 hne
      · intro a h
        cases h
        exact ⟨by simp only [hb]; exact hne.1, by simp only [hl]; exact hne.2⟩

/-- On a well-formed Codec with a decoder, a call on the decoder returns and leaves a well-formed
Codec with a decoder. -/
theorem apiCall_WF {D R : Type} (c : Codec D) (d : D) (hd : c.mDecoder = some d) (hwf : c.WF)
    (call : ApiCall) (toRet : R → Ret) (f : D → Interact (R × D)) :
    ∃ cbs r d' c₁, (f d).run c = (cbs, some ((r, d'), c₁)) ∧ c₁.WF ∧ c₁.mFdp = c.mFdp ∧
      c₁.mBuffer = c.mBuffer ∧ c₁.mBufferLen = c.mBufferLen ∧
      apiCall c call toRet f
        = ⟨[⟨call, cbs, toRet r⟩], .done (r, { c₁ with mDecoder := some d' })⟩ := by
  obtain ⟨⟨r, d'⟩, c₁, hrun, hc⟩ := Interact.run_WF (f d) c hwf
  obtain ⟨hb, hl, hf, -⟩ := (Interact.run_frame (f d) c).2 _ _ hrun
  refine ⟨((f d).run c).1, r, d', c₁, Prod.ext rfl hrun, hc, hf, hb, hl, ?_⟩
  unfold apiCall
  rw [hd]
  simp only
  rcases hx : (f d).run c with ⟨cbs, o⟩
  rw [hx] at hrun
  simp only at hrun
  subst hrun
  rfl

/-! ## `initDecoder` keeps the Codec well-formed -/

/-- On a well-formed Codec with a decoder, a call on the decoder returns and leaves such a
Codec. -/
theorem apiCall_keeps_WF {D R : Type} (c : Codec D) (hc : c.WF ∧ ∃ d, c.mDecoder = some d)
    (call : ApiCall) (toRet : R → Ret) (f : D → Interact (R × D)) :
    (apiCall c call toRet f).SatT (fun _ => True)
      (fun rc => rc.2.WF ∧ ∃ d, rc.2.mDecoder = some d) := by
  obtain ⟨hwf, d, hd⟩ := hc
  obtain ⟨cbs, r, d', c₁, -, hc₁, -, -, -, hcall⟩ := apiCall_WF c d hd hwf call toRet f
  rw [hcall]
  exact ⟨fun _ _ => trivial, _, rfl, hc₁, d', rfl⟩

/-- Whatever the decoder and the `FuzzedDataProvider` do, `initDecoder` on a well-formed Codec
returns, the Codec is still well-formed, and it holds a decoder when the result is `true`. -/
theorem initDecoder_WF {D : Type} (api : StreamDecoderApi D) (F : FdpApi) (c : Codec D)
    (hwf : c.WF) :
    (initDecoder api F c).SatT (fun _ => True)
      (fun r => r.2.WF ∧ (r.1 = true → ∃ d, r.2.mDecoder = some d)) := by
  have hkeep : ∀ c : Codec D, (c.WF ∧ ∃ d, c.mDecoder = some d) →
      (Exec.pure c).SatT (fun _ => True) (fun c => c.WF ∧ ∃ d, c.mDecoder = some d) :=
    fun c hc => Exec.satT_pure hc
  unfold initDecoder
  refine Exec.satT_seq (fun c => c.WF) ⟨fun _ _ => trivial, _, rfl, hwf⟩ (fun c hc => ?_)
  split
  · exact Exec.satT_pure ⟨hc, by simp⟩
  rename_i hsome
  have hdec : ∃ d, c.mDecoder = some d := by
    rcases hd : c.mDecoder with _ | d
    · simp [hd] at hsome
    · exact ⟨d, rfl⟩
  refine Exec.satT_seq _ (apiCall_keeps_WF _ ⟨hc, hdec⟩ _ _ _) (fun r hr => ?_)
  refine Exec.satT_seq _ (apiCall_keeps_WF _ hr _ _ _) (fun r hr => ?_)
  dsimp only
  refine Exec.satT_seq (fun c => c.WF ∧ ∃ d, c.mDecoder = some d) ?_ (fun c hc => ?_)
  · split
    · exact Exec.satT_seq _ (apiCall_keeps_WF _ (by exact hr) _ _ _) (fun r hr => hkeep _ hr)
    · exact hkeep _ hr
  refine Exec.satT_seq (fun c => c.WF ∧ ∃ d, c.mDecoder = some d) ?_ (fun c hc => ?_)
  · split
    · exact Exec.satT_seq _ (apiCall_keeps_WF _ (by exact hc) _ _ _) (fun r hr => hkeep _ hr)
    · exact hkeep _ hc
  refine Exec.satT_seq (fun c => c.WF ∧ ∃ d, c.mDecoder = some d) ?_ (fun c hc => ?_)
  · split
    · exact Exec.satT_seq _ (apiCall_keeps_WF _ (by exact hc) _ _ _) (fun r hr => hkeep _ hr)
    · refine Exec.satT_seq _ (apiCall_keeps_WF _ (by exact hc) _ _ _) (fun r hr => ?_)
      exact Exec.satT_seq _ (apiCall_keeps_WF _ hr _ _ _) (fun r hr => hkeep _ hr)
  refine Exec.satT_seq _ (apiCall_keeps_WF _ hc _ _ _) (fun r hr => ?_)
  split
  · exact Exec.satT_pure ⟨hr.1, by simp⟩
  refine Exec.satT_seq (fun c => c.WF ∧ ∃ d, c.mDecoder = some d) ?_ (fun c hc => ?_)
  · split
    · exact Exec.satT_seq _ (apiCall_keeps_WF _ (by exact hr) _ _ _) (fun r hr => hkeep _ hr)
    · exact hkeep _ hr
  refine Exec.satT_seq (fun c => c.WF ∧ ∃ d, c.mDecoder = some d) ?_ (fun c hc' => ?_)
  · split
    · exact Exec.satT_seq _ (apiCall_keeps_WF _ (by exact hc) _ _ _) (fun r hr => hkeep _ hr)
    · exact hkeep _ hc
  exact Exec.satT_pure ⟨hc'.1, fun _ => hc'.2⟩

/-! ## No callback aborts -/

theorem initDecoder_nonabort {D : Type} (api : StreamDecoderApi D) (F : FdpApi) (c : Codec D)
    (hne : c.NonEmpty) :
    (initDecoder api F c).Sat (fun e => ∀ cb ∈ e.callbacks, cb.NonAbort)
      (fun r => r.2.NonEmpty) := by
  unfold initDecoder
  refine Exec.sat_seq (fun c => c.NonEmpty) ⟨by simp, by intro a h; cases h; exact hne⟩
    (fun c hc => ?_)
  split
  · exact Exec.sat_pure hc
  refine Exec.sat_seq _ (apiCall_nonabort _ (by exact hc) _ _ _) (fun r hr => ?_)
  refine Exec.sat_seq _ (apiCall_nonabort _ (by exact hr) _ _ _) (fun r hr => ?_)
  dsimp only
  refine Exec.sat_seq (fun c => c.NonEmpty) ?_ (fun c hc => ?_)
  · split
    · exact Exec.sat_seq _ (apiCall_nonabort _ (by exact hr) _ _ _) (fun r hr => Exec.sat_pure hr)
    · exact Exec.sat_pure hr
  refine Exec.sat_seq (fun c => c.NonEmpty) ?_ (fun c hc => ?_)
  · split
    · exact Exec.sat_seq _ (apiCall_nonabort _ (by exact hc) _ _ _) (fun r hr => Exec.sat_pure hr)
    · exact Exec.sat_pure hc
  refine Exec.sat_seq (fun c => c.NonEmpty) ?_ (fun c hc => ?_)
  · split
    · exact Exec.sat_seq _ (apiCall_nonabort _ (by exact hc) _ _ _) (fun r hr => Exec.sat_pure hr)
    · refine Exec.sat_seq _ (apiCall_nonabort _ (by exact hc) _ _ _) (fun r hr => ?_)
      exact Exec.sat_seq _ (apiCall_nonabort _ (by exact hr) _ _ _) (fun r hr => Exec.sat_pure hr)
  refine Exec.sat_seq _ (apiCall_nonabort _ (by exact hc) _ _ _) (fun r hr => ?_)
  split
  · exact Exec.sat_pure hr
  refine Exec.sat_seq (fun c => c.NonEmpty) ?_ (fun c hc => ?_)
  · split
    · exact Exec.sat_seq _ (apiCall_nonabort _ (by exact hr) _ _ _) (fun r hr => Exec.sat_pure hr)
    · exact Exec.sat_pure hr
  refine Exec.sat_seq (fun c => c.NonEmpty) ?_ (fun c hc' => ?_)
  · split
    · exact Exec.sat_seq _ (apiCall_nonabort _ (by exact hc) _ _ _) (fun r hr => Exec.sat_pure hr)
    · exact Exec.sat_pure hc
  exact Exec.sat_pure hc'

theorem decodeLoop_nonabort {D : Type} (api : StreamDecoderApi D) (fuel : Nat) (c : Codec D)
    (hne : c.NonEmpty) :
    (decodeLoop api fuel c).Sat (fun e => ∀ cb ∈ e.callbacks, cb.NonAbort)
      (fun l => l.2.NonEmpty) := by
  induction fuel generalizing c with
  | zero => exact ⟨by simp [decodeLoop], by intro a h; cases h⟩
  | succ fuel ih =>
    unfold decodeLoop
    split
    · refine Exec.sat_seq _ (apiCall_nonabort _ (by exact hne) _ _ _) (fun r hr => ?_)
      refine Exec.sat_seq _ (apiCall_nonabort _ (by exact hr) _ _ _) (fun s hs => ?_)
      split
      · exact Exec.sat_pure hs
      · exact ih _ hs
    · exact Exec.sat_pure hne

theorem decodeFrames_nonabort {D : Type} (api : StreamDecoderApi D) (F : FdpApi) (fuel : Nat)
    (c : Codec D) (hne : c.NonEmpty) :
    (decodeFrames api F fuel c).Sat (fun e => ∀ cb ∈ e.callbacks, cb.NonAbort)
      (fun c' => c'.NonEmpty) := by
  unfold decodeFrames
  dsimp only
  split
  · refine Exec.sat_seq _ (apiCall_nonabort _ (by exact hne) _ _ _) (fun r hr => ?_)
    split
    · exact Exec.sat_pure hr
    refine Exec.sat_seq _ (decodeLoop_nonabort api fuel _ hr) (fun l hl => ?_)
    split
    · exact Exec.sat_pure hl
    · exact Exec.sat_seq _ (apiCall_nonabort _ (by exact hl) _ _ _) (fun r hr => Exec.sat_pure hr)
  · refine Exec.sat_seq _ (apiCall_nonabort _ (by exact hne) _ _ _) (fun r hr => ?_)
    exact Exec.sat_seq _ (apiCall_nonabort _ (by exact hr) _ _ _) (fun r hr => Exec.sat_pure hr)

theorem deInitDecoder_nonabort {D : Type} (api : StreamDecoderApi D) (c : Codec D)
    (hne : c.NonEmpty) :
    (deInitDecoder api c).Sat (fun e => ∀ cb ∈ e.callbacks, cb.NonAbort) (fun _ => True) := by
  unfold deInitDecoder
  rcases c.mDecoder with _ | d
  · exact Exec.sat_pure trivial
  · simp only
    have h1 := (Interact.run_frame (api.delete d) c).1 hne
    rcases hrun : (api.delete d).run c with ⟨cbs, _ | ⟨u, c'⟩⟩ <;> rw [hrun] at h1 <;>
      refine ⟨?_, fun _ _ => trivial⟩ <;> intro e he <;>
      simp only [List.mem_singleton] at he <;> subst he <;> exact h1

/-! ## The loop of `decodeFrames` -/

/-- One iteration of the loop on a well-formed Codec with a decoder: `process_single`, then
`get_state`; the loop returns if the state is `END_OF_STREAM` and goes on otherwise. -/
theorem decodeLoop_step {D : Type} (api : StreamDecoderApi D) (fuel : Nat) (c : Codec D) (d : D)
    (hwf : c.WF) (hd : c.mDecoder = some d) :
    ∃ cbs r d' c₂, (api.process_single d).run c = (cbs, some ((r, d'), c₂)) ∧
      ({ c₂ with mDecoder := some d' } : Codec D).WF ∧
      decodeLoop api (fuel + 1) c =
        if api.get_state d' = .END_OF_STREAM then
          ⟨[⟨.process_single, cbs, .bool r⟩, ⟨.get_state, [], .state (api.get_state d')⟩],
            .done (.returned, { c₂ with mDecoder := some d' })⟩
        else
          ⟨⟨.process_single, cbs, .bool r⟩ :: ⟨.get_state, [], .state (api.get_state d')⟩ ::
              (decodeLoop api fuel { c₂ with mDecoder := some d' }).trace,
            (decodeLoop api fuel { c₂ with mDecoder := some d' }).res⟩ := by
  obtain ⟨cbs, r, d', c₂, hrun, hc₂, -, -, -, hcall⟩ :=
    apiCall_WF c d hd hwf .process_single .bool api.process_single
  refine ⟨cbs, r, d', c₂, hrun, hc₂, ?_⟩
  rw [decodeLoop, if_pos hwf.1, hcall]
  simp only [Exec.bind, apiCall, Interact.run, Exec.pure]
  by_cases hst : api.get_state d' = .END_OF_STREAM
  · simp [hst]
  · simp only [hst, if_false]
    rcases hres : (decodeLoop api fuel { c₂ with mDecoder := some d' }).res with l | _ | _ <;>
      simp [hres]

/-- Storing the decoder the Codec already holds changes nothing. -/
theorem Codec.setDecoder_self {D : Type} (c : Codec D) (d : D) (hd : c.mDecoder = some d) :
    ({ c with mDecoder := some d } : Codec D) = c := by
  cases c
  simp only at hd
  subst hd
  rfl

/-- The loop never runs into undefined behaviour on a well-formed Codec with a decoder, and it
is left only through the `return` that follows an `END_OF_STREAM` state: never because its guard
is false. -/
theorem decodeLoop_exit {D : Type} (api : StreamDecoderApi D) (fuel : Nat) (c : Codec D) (d : D)
    (hwf : c.WF) (hd : c.mDecoder = some d) :
    (decodeLoop api fuel c).res ≠ .fault ∧
    (∀ e ∈ (decodeLoop api fuel c).trace, e.call = .process_single ∨ e.call = .get_state) ∧
    ∀ l, (decodeLoop api fuel c).res = .done l →
      l.1 = .returned ∧ l.2.WF ∧ (∃ d', l.2.mDecoder = some d' ∧
        api.get_state d' = .END_OF_STREAM) ∧
      (decodeLoop api fuel c).trace.getLast?
        = some ⟨.get_state, [], .state .END_OF_STREAM⟩ := by
  induction fuel generalizing c d with
  | zero =>
    refine ⟨by simp [decodeLoop], by simp [decodeLoop], ?_⟩
    intro l hl
    simp [decodeLoop] at hl
  | succ fuel ih =>
    obtain ⟨cbs, r, d', c₂, -, hc₂, heq⟩ := decodeLoop_step api fuel c d hwf hd
    rw [heq]
    by_cases hst : api.get_state d' = .END_OF_STREAM
    · simp only [hst, if_true]
      refine ⟨by simp, by simp, ?_⟩
      intro l hl
      cases hl
      exact ⟨rfl, hc₂, ⟨d', rfl, hst⟩, by simp⟩
    · simp only [hst, if_false]
      obtain ⟨h1, h2, h3⟩ := ih { c₂ with mDecoder := some d' } d' hc₂ rfl
      refine ⟨h1, ?_, ?_⟩
      · intro e he
        simp only [List.mem_cons] at he
        rcases he with rfl | rfl | he
        · exact Or.inl rfl
        · exact Or.inr rfl
        · exact h2 e he
      · intro l hl
        obtain ⟨g1, g2, g3, g4⟩ := h3 l hl
        refine ⟨g1, g2, g3, ?_⟩
        rw [List.getLast?_cons_cons, List.getLast?_cons]
        rw [g4]
        rfl

/-- Once the decoder is in state `ABORTED`, and `process_single` is a no-op there, the loop does
not end, whatever the number of iterations allowed. -/
theorem decodeLoop_aborted {D : Type} (api : StreamDecoderApi D)
    (hnoop : ∀ d, api.get_state d = .ABORTED → ∃ b, api.process_single d = .ret (b, d))
    (fuel : Nat) (c : Codec D) (d : D) (hwf : c.WF) (hd : c.mDecoder = some d)
    (hab : api.get_state d = .ABORTED) :
    (decodeLoop api fuel c).res = .outOfFuel := by
  induction fuel with
  | zero => rfl
  | succ fuel ih =>
    obtain ⟨cbs, r, d', c₂, hrun, -, heq⟩ := decodeLoop_step api fuel c d hwf hd
    obtain ⟨b, hb⟩ := hnoop d hab
    rw [hb] at hrun
    simp only [Interact.run, Prod.mk.injEq, Option.some.injEq] at hrun
    obtain ⟨-, ⟨-, rfl⟩, rfl⟩ := hrun
    rw [heq, Codec.setDecoder_self c d hd]
    have hne : api.get_state d ≠ .END_OF_STREAM := by
      rw [hab]
      decide
    simp only [hne, if_false]
    exact ih

/-- A run of the loop that ends has never seen the decoder in state `ABORTED`, when
`process_single` is a no-op in that state. -/
theorem decodeLoop_done_never_aborted {D : Type} (api : StreamDecoderApi D)
    (hnoop : ∀ d, api.get_state d = .ABORTED → ∃ b, api.process_single d = .ret (b, d))
    (fuel : Nat) (c : Codec D) (d : D) (hwf : c.WF) (hd : c.mDecoder = some d)
    (l : LoopExit × Codec D) (hl : (decodeLoop api fuel c).res = .done l) :
    ∀ e ∈ (decodeLoop api fuel c).trace, e.ret ≠ .state .ABORTED := by
  induction fuel generalizing c d with
  | zero => simp [decodeLoop] at hl
  | succ fuel ih =>
    obtain ⟨cbs, r, d', c₂, -, hc₂, heq⟩ := decodeLoop_step api fuel c d hwf hd
    rw [heq] at hl ⊢
    by_cases hst : api.get_state d' = .END_OF_STREAM
    · simp only [hst, if_true]
      intro e he
      simp only [List.mem_cons, List.mem_singleton, List.not_mem_nil, or_false] at he
      rcases he with rfl | rfl <;> simp
    · simp only [hst, if_false] at hl ⊢
      have hna : api.get_state d' ≠ .ABORTED := by
        intro hab
        rw [decodeLoop_aborted api hnoop fuel _ d' hc₂ rfl hab] at hl
        cases hl
      intro e he
      simp only [List.mem_cons] at he
      rcases he with rfl | rfl | he
      · simp
      · simpa using hna
      · exact ih _ d' hc₂ rfl hl e he

/-! ## `initDecoder` on the decoder of the specification -/

/-- A call on the decoder that comes back without invoking a callback. -/
theorem apiCall_ret {D R : Type} (c : Codec D) (d : D) (hd : c.mDecoder = some d)
    (call : ApiCall) (toRet : R → Ret) (f : D → Interact (R × D)) (r : R) (d' : D)
    (hf : f d = .ret (r, d')) :
    apiCall c call toRet f
      = ⟨[⟨call, [], toRet r⟩], .done (r, { c with mDecoder := some d' })⟩ := by
  unfold apiCall
  rw [hd]
  simp only [hf, Interact.run]

/-- A call that comes back at once on every unread decoder, leaving it unread, keeps the Codec at
its start. -/
theorem apiCall_atStart {R : Type} (c : Codec DecoderState) (hc : c.AtStart) (call : ApiCall)
    (toRet : R → Ret) (f : DecoderState → Interact (R × DecoderState))
    (hf : ∀ d, d.Unread → ∃ r d', f d = .ret (r, d') ∧ d'.Unread ∧
      Event.Quiet ⟨call, [], toRet r⟩) :
    (apiCall c call toRet f).SatT Event.Quiet (fun rc => rc.2.AtStart) := by
  obtain ⟨hpos, d, hd, hu⟩ := hc
  obtain ⟨r, d', hfd, hu', hq⟩ := hf d hu
  rw [apiCall_ret c d hd call toRet f r d' hfd]
  refine ⟨?_, _, rfl, hpos, d', rfl, hu'⟩
  intro e he
  simp only [List.mem_singleton] at he
  subst he
  exact hq

/-- A configuration call of the spec decoder comes back at once and leaves an unread decoder
unread. -/
theorem configure_unread (call : ApiCall) (hcall : call.isConfiguration = true)
    (g : DecoderState → DecoderState) (hg : ∀ d, d.Unread → (g d).Unread) (d : DecoderState)
    (hd : d.Unread) :
    ∃ r d', d.configure g = .ret (r, d') ∧ d'.Unread ∧ Event.Quiet ⟨call, [], .bool r⟩ := by
  have hq : ∀ r, Event.Quiet ⟨call, [], .bool r⟩ := by
    intro r
    refine ⟨rfl, ?_, ?_⟩
    · intro cbs h
      simp only at h
      subst h
      cases hcall
    · intro t h
      simp only at h
      subst h
      cases hcall
  unfold DecoderState.configure
  split
  · exact ⟨true, g d, rfl, hg d hd, hq true⟩
  · exact ⟨false, d, rfl, hd, hq false⟩

theorem initDecoder_spec_atStart (P : DecoderParts) (F : FdpApi) (c : Codec DecoderState)
    (hpos : c.mBufferPos = 0) :
    (initDecoder (specDecoder P) F c).SatT Event.Quiet
      (fun r => r.2.mBufferPos = 0 ∧ ∀ d, r.2.mDecoder = some d → d.Unread) := by
  have hfin : ∀ (b : Bool) (c : Codec DecoderState), c.AtStart →
      (Exec.pure (b, c)).SatT Event.Quiet
        (fun r => r.2.mBufferPos = 0 ∧ ∀ d, r.2.mDecoder = some d → d.Unread) := by
    intro b c hc
    refine Exec.satT_pure ⟨hc.1, ?_⟩
    obtain ⟨-, d, hd, hu⟩ := hc
    intro d' hd'
    simp only at hd'
    rw [hd] at hd'
    cases hd'
    exact hu
  have hkeep : ∀ c : Codec DecoderState, c.AtStart →
      (Exec.pure c).SatT Event.Quiet (fun c => c.AtStart) := fun c hc => Exec.satT_pure hc
  unfold initDecoder
  cases hP : P.allocates
  · have hnew : (specDecoder P).new = none := by simp [specDecoder, hP]
    simp only [hnew, Exec.bind, Option.isNone_none, if_true, Exec.pure, List.append_nil]
    refine ⟨?_, _, rfl, hpos, by simp⟩
    intro e he
    simp only [List.mem_singleton] at he
    subst he
    exact ⟨rfl, by simp, by simp⟩
  · have hnew : (specDecoder P).new = some DecoderState.fresh := by simp [specDecoder, hP]
    have hfirst : (⟨[⟨.new, [], .pointer (specDecoder P).new.isSome⟩],
        .done { c with mDecoder := (specDecoder P).new }⟩ : Exec (Codec DecoderState)).SatT
        Event.Quiet (fun c => c.AtStart) := by
      refine ⟨?_, _, rfl, hpos, DecoderState.fresh, hnew, rfl, rfl, rfl⟩
      intro e he
      simp only [List.mem_singleton] at he
      subst he
      exact ⟨rfl, by simp, by simp⟩
    refine Exec.satT_seq (fun c => c.AtStart) hfirst (fun c hc => ?_)
    have hsome : c.mDecoder.isNone = false := by
      obtain ⟨-, d, hd, -⟩ := hc
      simp [hd]
    simp only [hsome, Bool.false_eq_true, if_false]
    refine Exec.satT_seq (fun rc => rc.2.AtStart)
      (apiCall_atStart _ hc _ _ _ (by exact configure_unread _ (by rfl) _ (fun d hd => hd)))
      (fun r hr => ?_)
    refine Exec.satT_seq (fun rc => rc.2.AtStart)
      (apiCall_atStart _ hr _ _ _ (by exact configure_unread _ (by rfl) _ (fun d hd => hd)))
      (fun r hr => ?_)
    dsimp only
    refine Exec.satT_seq (fun c => c.AtStart) ?_ (fun c hc => ?_)
    · split
      · exact Exec.satT_seq (fun rc => rc.2.AtStart)
          (apiCall_atStart _ (by exact hr) _ _ _
            (by exact configure_unread _ (by rfl) _ (fun d hd => hd)))
          (fun r hr => hkeep _ hr)
      · exact hkeep _ hr
    refine Exec.satT_seq (fun c => c.AtStart) ?_ (fun c hc => ?_)
    · split
      · exact Exec.satT_seq (fun rc => rc.2.AtStart)
          (apiCall_atStart _ (by exact hc) _ _ _
            (by exact configure_unread _ (by rfl) _ (fun d hd => hd)))
          (fun r hr => hkeep _ hr)
      · exact hkeep _ hc
    refine Exec.satT_seq (fun c => c.AtStart) ?_ (fun c hc => ?_)
    · split
      · exact Exec.satT_seq (fun rc => rc.2.AtStart)
          (apiCall_atStart _ (by exact hc) _ _ _
            (by exact configure_unread _ (by rfl) _ (fun d hd => hd)))
          (fun r hr => hkeep _ hr)
      · refine Exec.satT_seq (fun rc => rc.2.AtStart)
          (apiCall_atStart _ (by exact hc) _ _ _
            (by exact configure_unread _ (by rfl) _ (fun d hd => hd)))
          (fun r hr => ?_)
        exact Exec.satT_seq (fun rc => rc.2.AtStart)
          (apiCall_atStart _ hr _ _ _ (by exact configure_unread _ (by rfl) _ (fun d hd => hd)))
          (fun r hr => hkeep _ hr)
    refine Exec.satT_seq (fun rc => rc.2.AtStart) (apiCall_atStart _ hc _ _ _ ?_)
      (fun r hr => ?_)
    · intro d hd
      have hq : ∀ st, Event.Quiet ⟨.init_stream harnessCallbacks, [], .init st⟩ := by
        intro st
        refine ⟨rfl, ?_, by simp⟩
        intro cbs h
        simp only [ApiCall.init_stream.injEq] at h
        subst h
        exact ⟨rfl, rfl, rfl, rfl⟩
      simp only [specDecoder, harnessCallbacks, Bool.and_self, if_true]
      split
      · exact ⟨_, _, rfl, hd, hq _⟩
      · exact ⟨_, _, rfl, ⟨rfl, hd.2.1, hd.2.2⟩, hq _⟩
    split
    · exact hfin _ _ hr
    refine Exec.satT_seq (fun c => c.AtStart) ?_ (fun c hc => ?_)
    · split
      · exact Exec.satT_seq (fun rc => rc.2.AtStart)
          (apiCall_atStart _ (by exact hr) _ _ _
            (by exact configure_unread _ (by rfl) _ (fun d hd => hd)))
          (fun r hr => hkeep _ hr)
      · exact hkeep _ hr
    refine Exec.satT_seq (fun c => c.AtStart) ?_ (fun c hc' => ?_)
    · split
      · refine Exec.satT_seq (fun rc => rc.2.AtStart)
          (apiCall_atStart _ (by exact hc) _ _ _ ?_) (fun r hr => hkeep _ hr)
        intro d hd
        refine ⟨false, d, ?_, hd, rfl, by simp, ?_⟩
        · simp [specDecoder, hd.1]
        · intro t h
          simp only [ApiCall.seek_absolute.injEq] at h
          subst h
          exact ⟨Nat.mod_lt _ (by norm_num), rfl⟩
      · exact hkeep _ hc
    exact hfin _ _ hc'

/-! ## The order of the calls of `initDecoder` -/

theorem Exec.staged_mono {α : Type} {x : Exec α} {lo hi lo' hi' : Nat} (hx : x.Staged lo hi)
    (hlo : lo' ≤ lo) (hhi : hi ≤ hi') : x.Staged lo' hi' :=
  ⟨hx.1, fun e he => ⟨le_trans hlo (hx.2 e he).1, le_trans (hx.2 e he).2 hhi⟩⟩

/-- A conditional call followed by `pure` is staged like the call. -/
theorem apiCall_then_pure_staged {D R : Type} (c : Codec D) (call : ApiCall) (toRet : R → Ret)
    (f : D → Interact (R × D)) (s : Nat) (hs : call.stage = s) :
    (Exec.bind (apiCall c call toRet f) fun r => Exec.pure r.2).Staged s s := by
  subst hs
  exact Exec.staged_bind call.stage (le_refl _) (le_refl _) (apiCall_staged c call toRet f)
    (fun _ => Exec.staged_pure)

/-- The calls of `initDecoder` come in the order of their stages. -/
theorem initDecoder_staged {D : Type} (api : StreamDecoderApi D) (F : FdpApi) (c : Codec D) :
    (initDecoder api F c).Staged 0 4 := by
  unfold initDecoder
  refine Exec.staged_bind 1 (by decide) (by decide) ⟨by simp, by simp [ApiCall.stage]⟩
    (fun c => ?_)
  split
  · exact Exec.staged_pure
  refine Exec.staged_bind 1 (by decide) (by decide) (apiCall_staged _ _ _ _) (fun r => ?_)
  refine Exec.staged_bind 1 (by decide) (by decide) (apiCall_staged _ _ _ _) (fun r => ?_)
  dsimp only
  refine Exec.staged_bind 1 (by decide) (by decide) ?_ (fun c => ?_)
  · split
    · exact apiCall_then_pure_staged _ _ _ _ 1 rfl
    · exact Exec.staged_pure
  refine Exec.staged_bind 1 (by decide) (by decide) ?_ (fun c => ?_)
  · split
    · exact apiCall_then_pure_staged _ _ _ _ 1 rfl
    · exact Exec.staged_pure
  refine Exec.staged_bind 1 (by decide) (by decide) ?_ (fun c => ?_)
  · split
    · exact apiCall_then_pure_staged _ _ _ _ 1 rfl
    · exact Exec.staged_bind 1 (by decide) (by decide) (apiCall_staged _ _ _ _)
        (fun r => apiCall_then_pure_staged _ _ _ _ 1 rfl)
  refine Exec.staged_bind 2 (by decide) (by decide)
    (Exec.staged_mono (apiCall_staged _ _ _ _) (by decide) (le_refl _)) (fun r => ?_)
  split
  · exact Exec.staged_pure
  refine Exec.staged_bind 3 (by decide) (by decide) ?_ (fun c => ?_)
  · split
    · exact Exec.staged_mono (apiCall_then_pure_staged _ _ _ _ 3 (by rfl)) (by decide) (le_refl _)
    · exact Exec.staged_pure
  refine Exec.staged_bind 4 (by decide) (by decide) ?_ (fun c => ?_)
  · split
    · exact Exec.staged_mono (apiCall_then_pure_staged _ _ _ _ 4 (by rfl)) (by decide) (le_refl _)
    · exact Exec.staged_pure
  exact Exec.staged_pure

/-- A call on the decoder is logged under its own name. -/
theorem apiCall_call {D R : Type} (c : Codec D) (call : ApiCall) (toRet : R → Ret)
    (f : D → Interact (R × D)) (E : Event → Prop) (hE : ∀ e, e.call = call → E e) :
    (apiCall c call toRet f).Sat E (fun _ => True) := by
  refine ⟨?_, fun _ _ => trivial⟩
  unfold apiCall
  rcases c.mDecoder with _ | d
  · simp
  · simp only
    rcases (f d).run c with ⟨cbs, _ | ⟨⟨r, d'⟩, c'⟩⟩ <;>
      simp only [List.mem_singleton, forall_eq] <;> exact hE _ rfl

/-- A configuration call of `initDecoder`, followed by `pure`. -/
theorem apiCall_then_pure_inInitDecoder {D R : Type} (c : Codec D) (call : ApiCall)
    (toRet : R → Ret) (f : D → Interact (R × D)) (hcall : call.inInitDecoder) :
    (Exec.bind (apiCall c call toRet f) fun r => Exec.pure r.2).Sat
      (fun e => e.call.inInitDecoder) (fun _ => True) :=
  Exec.sat_seq (fun _ => True)
    (apiCall_call c call toRet f _ (fun e he => by rw [he]; exact hcall))
    (fun _ _ => Exec.sat_pure trivial)

/-- Whatever the decoder and the `FuzzedDataProvider` do, `initDecoder` only makes the calls of
`ApiCall.inInitDecoder`. -/
theorem initDecoder_calls {D : Type} (api : StreamDecoderApi D) (F : FdpApi) (c : Codec D) :
    (initDecoder api F c).Sat (fun e => e.call.inInitDecoder) (fun _ => True) := by
  have hconf : ∀ call : ApiCall, call.isConfiguration = true → call.inInitDecoder :=
    fun call h => Or.inr (Or.inl h)
  unfold initDecoder
  refine Exec.sat_seq (fun _ => True) ⟨?_, fun _ _ => trivial⟩ (fun c _ => ?_)
  · intro e he
    simp only [List.mem_singleton] at he
    subst he
    exact Or.inl rfl
  split
  · exact Exec.sat_pure trivial
  refine Exec.sat_seq (fun _ => True)
    (apiCall_call _ _ _ _ _ (fun e he => by rw [he]; exact hconf _ rfl)) (fun r _ => ?_)
  refine Exec.sat_seq (fun _ => True)
    (apiCall_call _ _ _ _ _ (fun e he => by rw [he]; exact hconf _ rfl)) (fun r _ => ?_)
  dsimp only
  refine Exec.sat_seq (fun _ => True) ?_ (fun c _ => ?_)
  · split
    · exact apiCall_then_pure_inInitDecoder _ _ _ _ (hconf _ rfl)
    · exact Exec.sat_pure trivial
  refine Exec.sat_seq (fun _ => True) ?_ (fun c _ => ?_)
  · split
    · exact apiCall_then_pure_inInitDecoder _ _ _ _ (hconf _ rfl)
    · exact Exec.sat_pure trivial
  refine Exec.sat_seq (fun _ => True) ?_ (fun c _ => ?_)
  · split
    · exact apiCall_then_pure_inInitDecoder _ _ _ _ (hconf _ rfl)
    · exact Exec.sat_seq (fun _ => True)
        (apiCall_call _ _ _ _ _ (fun e he => by rw [he]; exact hconf _ rfl))
        (fun r _ => apiCall_then_pure_inInitDecoder _ _ _ _ (hconf _ rfl))
  refine Exec.sat_seq (fun _ => True)
    (apiCall_call _ _ _ _ _ (fun e he => by rw [he]; exact Or.inr (Or.inr (Or.inl rfl))))
    (fun r _ => ?_)
  split
  · exact Exec.sat_pure trivial
  refine Exec.sat_seq (fun _ => True) ?_ (fun c _ => ?_)
  · split
    · exact apiCall_then_pure_inInitDecoder _ _ _ _ (hconf _ rfl)
    · exact Exec.sat_pure trivial
  refine Exec.sat_seq (fun _ => True) ?_ (fun c _ => ?_)
  · split
    · exact apiCall_then_pure_inInitDecoder _ _ _ _
        (Or.inr (Or.inr (Or.inr ⟨_, Nat.mod_lt _ (by norm_num), rfl⟩)))
    · exact Exec.sat_pure trivial
  exact Exec.sat_pure trivial

/-- A configuration call whose stage is not before `init_stream` is
`set_metadata_respond_all`. -/
theorem ApiCall.configuration_after_init (call : ApiCall) (hc : call.isConfiguration = true)
    (hs : 2 ≤ call.stage) : call = .set_metadata_respond_all := by
  cases call <;> simp_all [ApiCall.isConfiguration, ApiCall.stage]

/-- The stage of `init_stream`. -/
theorem ApiCall.stage_of_isInitStream (call : ApiCall) (hc : call.isInitStream = true) :
    call.stage = 2 := by
  cases call <;> simp_all [ApiCall.isInitStream, ApiCall.stage]

/-! ## The byte source: `readCallback` -/

/-- C1: on a non-empty input with `mBufferPos <= mBufferLen`, one call of `readCallback` with
request size `n` delivers exactly `k = min(n, mBufferLen - mBufferPos)` bytes, namely
`input[mBufferPos], ..., input[mBufferPos + k - 1]` in order, reports the byte count `k`, and
leaves `mBufferPos` at its old value plus `k`. -/
theorem readCallback_delivers {D : Type} (c : Codec D) (input : List FLAC__byte) (n : Nat)
    (hbuf : c.mBuffer = some input) (hlen : input.length = c.mBufferLen)
    (hne : 0 < c.mBufferLen) (hsz : c.mBufferLen < SIZE_MOD)
    (hpos : c.mBufferPos ≤ c.mBufferLen) :
    ∃ r, readCallback c n = some r ∧
      r.bytes = min n (c.mBufferLen - c.mBufferPos) ∧
      r.buffer.length = r.bytes ∧
      (∀ i, i < r.bytes →
        r.buffer[i]? = input[c.mBufferPos + i]? ∧ c.mBufferPos + i < input.length) ∧
      r.codec.mBufferPos = c.mBufferPos + r.bytes := by
  refine ⟨_, readCallback_eq c input n hbuf hlen (by omega) hsz hpos, rfl, ?_, ?_, rfl⟩
  · simp only [List.length_take, List.length_drop]
    omega
  · intro i hi
    simp only at hi
    refine ⟨?_, by omega⟩
    simp only [List.getElem?_take, if_pos hi, List.getElem?_drop]

/-- C1, at the Codec `demoCodec` and request size 3: the bytes `20, 30, 40` are delivered. -/
theorem readCallback_delivers_witness :
    (demoCodec.mBuffer = some [10, 20, 30, 40, 50] ∧ 0 < demoCodec.mBufferLen ∧
      demoCodec.mBufferPos ≤ demoCodec.mBufferLen) ∧
    ∃ r, readCallback demoCodec 3 = some r ∧
      r.bytes = min 3 (demoCodec.mBufferLen - demoCodec.mBufferPos) ∧
      r.buffer.length = r.bytes ∧
      (∀ i, i < r.bytes → r.buffer[i]? = [10, 20, 30, 40, 50][demoCodec.mBufferPos + i]? ∧
        demoCodec.mBufferPos + i < [10, 20, 30, 40, 50].length) ∧
      r.codec.mBufferPos = demoCodec.mBufferPos + r.bytes :=
  ⟨⟨rfl, by decide, by decide⟩,
    readCallback_delivers demoCodec [10, 20, 30, 40, 50] 3 rfl rfl (by decide)
      (by norm_num [demoCodec, Codec.new, SIZE_MOD]) (by decide)⟩

/-- C2: from a freshly constructed Codec over an input of any length (a null pointer included),
after every finite sequence of `readCallback` calls `mBufferPos <= mBufferLen` holds, the
unsigned subtraction `mBufferLen - mBufferPos` does not wrap, and no call reads the input at an
index `>= mBufferLen`. -/
theorem readCallback_never_leaves_input {D : Type} (data : Option (List FLAC__byte))
    (size : Nat) (reqs : List Nat) (hdata : ∀ l, data = some l → l.length = size)
    (hsz : size < SIZE_MOD) :
    ∃ rs c', readMany (Codec.new data size : Codec D) reqs = some (rs, c') ∧
      c'.mBufferLen = size ∧ c'.mBufferPos ≤ c'.mBufferLen ∧
      size_sub c'.mBufferLen c'.mBufferPos + c'.mBufferPos = c'.mBufferLen ∧
      ∀ r ∈ rs, (∀ i ∈ r.reads, i < size) ∧ r.codec.mBufferPos ≤ r.codec.mBufferLen ∧
        size_sub r.codec.mBufferLen r.codec.mBufferPos + r.codec.mBufferPos
          = r.codec.mBufferLen := by
  have hwf : (Codec.new data size : Codec D).WF := ⟨Nat.zero_le _, hsz, hdata⟩
  obtain ⟨rs, c', hrs, hcwf, hclen, hall⟩ := readMany_WF reqs _ hwf
  have key : ∀ e : Codec D, e.WF →
      size_sub e.mBufferLen e.mBufferPos + e.mBufferPos = e.mBufferLen := by
    intro e he
    rw [size_sub_of_le he.1 he.2.1]
    exact Nat.sub_add_cancel he.1
  refine ⟨rs, c', hrs, hclen, hcwf.1, key c' hcwf, ?_⟩
  intro r hr
  obtain ⟨h1, h2, -⟩ := hall r hr
  exact ⟨h1, h2.1, key r.codec h2⟩

/-- C2, for the input `7, 8, 9` and the request sizes `2, 0, 5, 1`. -/
theorem readCallback_never_leaves_input_witness :
    ((∀ l, some [7, 8, 9] = some l → l.length = 3) ∧ 3 < SIZE_MOD) ∧
    ∃ rs c', readMany (Codec.new (some [7, 8, 9]) 3 : Codec DecoderState) [2, 0, 5, 1]
        = some (rs, c') ∧
      c'.mBufferLen = 3 ∧ c'.mBufferPos ≤ c'.mBufferLen ∧
      size_sub c'.mBufferLen c'.mBufferPos + c'.mBufferPos = c'.mBufferLen ∧
      ∀ r ∈ rs, (∀ i ∈ r.reads, i < 3) ∧ r.codec.mBufferPos ≤ r.codec.mBufferLen ∧
        size_sub r.codec.mBufferLen r.codec.mBufferPos + r.codec.mBufferPos
          = r.codec.mBufferLen :=
  ⟨⟨by intro l h; cases h; rfl, by norm_num [SIZE_MOD]⟩,
    readCallback_never_leaves_input (some [7, 8, 9]) 3 [2, 0, 5, 1]
      (by intro l h; cases h; rfl) (by norm_num [SIZE_MOD])⟩

/-- C3, as the code has it: on a non-empty input with `mBufferPos <= mBufferLen`, `readCallback`
returns `END_OF_STREAM` if and only if it delivers no byte, that is if the request size is zero
or no undelivered input byte remains; in every other case it returns `CONTINUE`. -/
theorem readCallback_status {D : Type} (c : Codec D) (input : List FLAC__byte) (n : Nat)
    (hbuf : c.mBuffer = some input) (hlen : input.length = c.mBufferLen)
    (hne : 0 < c.mBufferLen) (hsz : c.mBufferLen < SIZE_MOD)
    (hpos : c.mBufferPos ≤ c.mBufferLen) :
    ∃ r, readCallback c n = some r ∧
      (r.status = .END_OF_STREAM ↔ (n = 0 ∨ c.mBufferPos = c.mBufferLen)) ∧
      (¬ (n = 0 ∨ c.mBufferPos = c.mBufferLen) → r.status = .CONTINUE) := by
  refine ⟨_, readCallback_eq c input n hbuf hlen (by omega) hsz hpos, ?_, ?_⟩
  · simp only
    by_cases hk : min n (c.mBufferLen - c.mBufferPos) = 0
    · simp only [hk, if_true, true_iff]
      omega
    · simp only [hk, if_false]
      constructor
      · intro h
        cases h
      · intro h
        omega
  · intro h
    have hk : min n (c.mBufferLen - c.mBufferPos) ≠ 0 := by omega
    simp only [hk, if_false]

/-- C3 as amended, at `demoCodec` with request size 3. -/
theorem readCallback_status_witness :
    (demoCodec.mBuffer = some [10, 20, 30, 40, 50] ∧ 0 < demoCodec.mBufferLen ∧
      demoCodec.mBufferPos ≤ demoCodec.mBufferLen) ∧
    ∃ r, readCallback demoCodec 3 = some r ∧
      (r.status = .END_OF_STREAM ↔ (3 = 0 ∨ demoCodec.mBufferPos = demoCodec.mBufferLen)) ∧
      (¬ (3 = 0 ∨ demoCodec.mBufferPos = demoCodec.mBufferLen) → r.status = .CONTINUE) :=
  ⟨⟨rfl, by decide, by decide⟩,
    readCallback_status demoCodec [10, 20, 30, 40, 50] 3 rfl rfl (by decide)
      (by norm_num [demoCodec, Codec.new, SIZE_MOD]) (by decide)⟩

/-- C3 as stated fails: with request size zero `readCallback` returns `END_OF_STREAM` although
four input bytes of `demoCodec` are still undelivered. -/
theorem readCallback_zero_request_end_of_stream :
    demoCodec.mBuffer ≠ none ∧ 0 < demoCodec.mBufferLen ∧
    demoCodec.mBufferPos ≤ demoCodec.mBufferLen ∧
    ∃ r, readCallback demoCodec 0 = some r ∧ r.status = .END_OF_STREAM ∧ r.bytes = 0 ∧
      demoCodec.mBufferPos ≠ demoCodec.mBufferLen ∧
      ¬ (r.status = .END_OF_STREAM ↔ demoCodec.mBufferPos = demoCodec.mBufferLen) := by
  have hr := readCallback_eq demoCodec [10, 20, 30, 40, 50] 0 rfl rfl (by decide)
    (by norm_num [demoCodec, Codec.new, SIZE_MOD]) (by decide)
  refine ⟨by simp [demoCodec, Codec.new], by decide, by decide, _, hr, rfl, rfl, by decide, ?_⟩
  intro h
  have hpos : demoCodec.mBufferPos = demoCodec.mBufferLen := h.mp rfl
  revert hpos
  decide

/-- C5: for a non-empty input and any finite sequence of request sizes, the byte blocks
delivered by successive `readCallback` calls on a fresh Codec, put end to end, are the prefix of
the input of length `min(sum of the requests, mBufferLen)`, which is also the final
`mBufferPos`; once the requests total at least `mBufferLen` the whole input has been delivered,
once. -/
theorem readMany_delivers_initial_segment {D : Type} (input : List FLAC__byte) (reqs : List Nat)
    (hne : input ≠ []) (hsz : input.length < SIZE_MOD) :
    ∃ rs c', readMany (Codec.new (some input) input.length : Codec D) reqs = some (rs, c') ∧
      (rs.map (fun r => r.buffer)).flatten = input.take (min reqs.sum input.length) ∧
      c'.mBufferPos = min reqs.sum input.length ∧
      (input.length ≤ reqs.sum → (rs.map (fun r => r.buffer)).flatten = input) := by
  have hlen0 : input.length ≠ 0 := fun h => hne (List.length_eq_zero.mp h)
  obtain ⟨rs, c', hrs, hcat, hfin⟩ :=
    readMany_flatten input reqs (Codec.new (some input) input.length : Codec D) rfl rfl hlen0
      hsz (Nat.zero_le _)
  simp only [Codec.new, List.drop_zero, Nat.sub_zero, Nat.zero_add] at hcat hfin
  refine ⟨rs, c', hrs, hcat, hfin, ?_⟩
  intro h
  rw [hcat, Nat.min_eq_right h, List.take_length]

/-- C5, for the input `7, 8, 9` and the request sizes `2, 0, 5, 1`. -/
theorem readMany_delivers_initial_segment_witness :
    (([7, 8, 9] : List FLAC__byte) ≠ [] ∧ ([7, 8, 9] : List FLAC__byte).length < SIZE_MOD) ∧
    ∃ rs c', readMany (Codec.new (some [7, 8, 9]) ([7, 8, 9] : List FLAC__byte).length :
        Codec DecoderState) [2, 0, 5, 1] = some (rs, c') ∧
      (rs.map (fun r => r.buffer)).flatten
        = ([7, 8, 9] : List FLAC__byte).take
            (min [2, 0, 5, 1].sum ([7, 8, 9] : List FLAC__byte).length) ∧
      c'.mBufferPos = min [2, 0, 5, 1].sum ([7, 8, 9] : List FLAC__byte).length ∧
      (([7, 8, 9] : List FLAC__byte).length ≤ [2, 0, 5, 1].sum →
        (rs.map (fun r => r.buffer)).flatten = [7, 8, 9]) :=
  ⟨⟨by decide, by norm_num [SIZE_MOD]⟩,
    readMany_delivers_initial_segment [7, 8, 9] [2, 0, 5, 1] (by decide) (by norm_num [SIZE_MOD])⟩

/-- C10: the byte stream offered to the decoder is determined by the fuzz input alone: two
Codecs built over the same `(data, size)` return the same bytes, byte counts and statuses from
`readCallback` for the same sequence of request sizes, whatever state their
`FuzzedDataProvider` is in (whatever was drawn from it, however many bytes it consumed) and
whatever decoder they hold. -/
theorem read_stream_independent_of_fdp {D : Type} (data : Option (List FLAC__byte))
    (size : Nat) (f₁ f₂ : FuzzedDataProvider) (d₁ d₂ : Option D) (reqs : List Nat) :
    (readMany { (Codec.new data size : Codec D) with mFdp := f₁, mDecoder := d₁ } reqs).map
        (fun p => p.1.map fun r => (r.buffer, r.bytes, r.status))
      = (readMany { (Codec.new data size : Codec D) with mFdp := f₂, mDecoder := d₂ } reqs).map
        (fun p => p.1.map fun r => (r.buffer, r.bytes, r.status)) :=
  readMany_congr reqs _ _ rfl rfl rfl

/-! ## The harness and the decoder -/

/-- C4: on every run of `LLVMFuzzerTestOneInput` with a non-null data pointer no harness callback
returns an abort status: an input of size 0 returns 0 without a single call on the decoder (none
is created), and for size > 0 every `readCallback` invocation returns `END_OF_STREAM` (when it
delivers no byte: the input is exhausted) or `CONTINUE`, never `ABORT`, and every
`writeCallback` invocation returns `CONTINUE`. -/
theorem harness_callbacks_never_abort {D : Type} (api : StreamDecoderApi D) (F : FdpApi)
    (fuel : Nat) (data : Option (List FLAC__byte)) (size : Nat) (hdata : data ≠ none) :
    (size = 0 → LLVMFuzzerTestOneInput api F fuel data size = ⟨[], .done 0⟩) ∧
    (∀ e ∈ (LLVMFuzzerTestOneInput api F fuel data size).trace, ∀ cb ∈ e.callbacks,
      (∀ n k st, cb = .read n k st →
        st ≠ .ABORT ∧ st = if k = 0 then .END_OF_STREAM else .CONTINUE) ∧
      (∀ st, cb = .write st → st = .CONTINUE)) ∧
    (∀ c : Codec D, writeCallback c = .CONTINUE) := by
  refine ⟨?_, ?_, fun _ => rfl⟩
  · intro h
    simp [LLVMFuzzerTestOneInput, h, Exec.pure]
  · have key : (LLVMFuzzerTestOneInput api F fuel data size).Sat
        (fun e => ∀ cb ∈ e.callbacks, cb.NonAbort) (fun _ => True) := by
      unfold LLVMFuzzerTestOneInput
      split
      · exact Exec.sat_pure trivial
      · rename_i hsize
        have hne : (Codec.new data size : Codec D).NonEmpty := ⟨hdata, hsize⟩
        refine Exec.sat_seq _ (initDecoder_nonabort api F _ hne) (fun r hr => ?_)
        refine Exec.sat_seq (fun c => c.NonEmpty) ?_ (fun c hc => ?_)
        · split
          · exact decodeFrames_nonabort api F fuel _ hr
          · exact Exec.sat_pure hr
        · exact Exec.sat_seq _ (deInitDecoder_nonabort api c hc)
            (fun _ _ => Exec.sat_pure trivial)
    intro e he cb hcb
    have hcb' := key.1 e he cb hcb
    refine ⟨?_, ?_⟩
    · intro n k st h
      subst h
      simp only [CallbackEvent.NonAbort] at hcb'
      refine ⟨?_, hcb'⟩
      rw [hcb']
      split <;> simp
    · intro st h
      subst h
      exact hcb'

/-- C4, for the spec decoder on a fifteen-byte input. -/
theorem harness_callbacks_never_abort_witness :
    (some [1, 2, 3, 4, 5, 6, 7, 8, 9, 1, 1, 1, 0, 1, 1] : Option (List FLAC__byte)) ≠ none ∧
    ((15 = 0 → LLVMFuzzerTestOneInput (specDecoder demoParts) llvmFdp 10
        (some [1, 2, 3, 4, 5, 6, 7, 8, 9, 1, 1, 1, 0, 1, 1]) 15 = ⟨[], .done 0⟩) ∧
    (∀ e ∈ (LLVMFuzzerTestOneInput (specDecoder demoParts) llvmFdp 10
        (some [1, 2, 3, 4, 5, 6, 7, 8, 9, 1, 1, 1, 0, 1, 1]) 15).trace, ∀ cb ∈ e.callbacks,
      (∀ n k st, cb = .read n k st →
        st ≠ .ABORT ∧ st = if k = 0 then .END_OF_STREAM else .CONTINUE) ∧
      (∀ st, cb = .write st → st = .CONTINUE)) ∧
    (∀ c : Codec DecoderState, writeCallback c = .CONTINUE)) :=
  ⟨by simp, harness_callbacks_never_abort (specDecoder demoParts) llvmFdp 10
    (some [1, 2, 3, 4, 5, 6, 7, 8, 9, 1, 1, 1, 0, 1, 1]) 15 (by simp)⟩

/-- C8: in the step-by-step branch of `decodeFrames`, on a Codec whose read position is inside
its input, the loop guard `mBufferPos <= mBufferLen` is true on every iteration, so the loop is
left only through the `return` taken when the state is `END_OF_STREAM` right after a
`process_single` call; and when `process_single` is a no-op on an `ABORTED` decoder, a run in
which the decoder is seen in state `ABORTED` never leaves the loop: started on an `ABORTED`
decoder the loop does not end within any number of iterations. -/
theorem decodeLoop_ends_only_at_end_of_stream {D : Type} (api : StreamDecoderApi D)
    (c : Codec D) (d : D) (hwf : c.WF) (hd : c.mDecoder = some d) :
    (∀ fuel, (decodeLoop api fuel c).res ≠ .fault ∧
      ∀ l, (decodeLoop api fuel c).res = .done l →
        l.1 = .returned ∧
        (∃ d', l.2.mDecoder = some d' ∧ api.get_state d' = .END_OF_STREAM) ∧
        (decodeLoop api fuel c).trace.getLast?
          = some ⟨.get_state, [], .state .END_OF_STREAM⟩) ∧
    ((∀ d, api.get_state d = .ABORTED → ∃ b, api.process_single d = .ret (b, d)) →
      (∀ fuel l, (decodeLoop api fuel c).res = .done l →
        ∀ e ∈ (decodeLoop api fuel c).trace, e.ret ≠ .state .ABORTED) ∧
      (api.get_state d = .ABORTED → ∀ fuel, (decodeLoop api fuel c).res = .outOfFuel)) := by
  refine ⟨?_, ?_⟩
  · intro fuel
    obtain ⟨h1, -, h3⟩ := decodeLoop_exit api fuel c d hwf hd
    refine ⟨h1, ?_⟩
    intro l hl
    obtain ⟨g1, -, g3, g4⟩ := h3 l hl
    exact ⟨g1, g3, g4⟩
  · intro hnoop
    refine ⟨?_, ?_⟩
    · intro fuel l hl
      exact decodeLoop_done_never_aborted api hnoop fuel c d hwf hd l hl
    · intro hab fuel
      exact decodeLoop_aborted api hnoop fuel c d hwf hd hab

/-- C8, for the spec decoder in state `ABORTED` over a three-byte input: the loop does not end. -/
theorem decodeLoop_ends_only_at_end_of_stream_witness :
    (abortedCodec.WF ∧
      abortedCodec.mDecoder = some abortedDecoder) ∧
    (∀ fuel, (decodeLoop (specDecoder demoParts) fuel abortedCodec).res ≠ .fault ∧
      ∀ l, (decodeLoop (specDecoder demoParts) fuel abortedCodec).res = .done l →
        l.1 = .returned ∧
        (∃ d', l.2.mDecoder = some d' ∧
          (specDecoder demoParts).get_state d' = .END_OF_STREAM) ∧
        (decodeLoop (specDecoder demoParts) fuel abortedCodec).trace.getLast?
          = some ⟨.get_state, [], .state .END_OF_STREAM⟩) ∧
    (∀ fuel, (decodeLoop (specDecoder demoParts) fuel abortedCodec).res = .outOfFuel) := by
  have hwf : abortedCodec.WF :=
    ⟨by decide, by norm_num [abortedCodec, Codec.new, SIZE_MOD], by intro src h; cases h; rfl⟩
  have hnoop : ∀ d, (specDecoder demoParts).get_state d = .ABORTED →
      ∃ b, (specDecoder demoParts).process_single d = .ret (b, d) := by
    intro d hd
    have hp : d.phase = .ABORTED := hd
    exact ⟨true, by
      simp [specDecoder, DecoderState.processSingleUnit, hp,
        FLAC__StreamDecoderState.terminal]⟩
  have h := decodeLoop_ends_only_at_end_of_stream (specDecoder demoParts) abortedCodec
    abortedDecoder hwf rfl
  exact ⟨⟨hwf, rfl⟩, h.1, (h.2 hnoop).2 rfl⟩

/-- C9: `decodeFrames`, on a Codec with a decoder and its read position inside the input, calls
`finish` exactly once when the drain-all branch is taken (the calls are
`process_until_end_of_stream`, then `finish`, and the function returns), and never when the
step-by-step branch is taken, however long the loop runs. -/
theorem decodeFrames_finish {D : Type} (api : StreamDecoderApi D) (F : FdpApi) (fuel : Nat)
    (c : Codec D) (d : D) (hwf : c.WF) (hd : c.mDecoder = some d) :
    ((F.ConsumeBool c.mFdp).1 = false →
      (∃ c', (decodeFrames api F fuel c).res = .done c') ∧
      (decodeFrames api F fuel c).trace.map (fun e => e.call)
        = [.process_until_end_of_stream, .finish]) ∧
    ((F.ConsumeBool c.mFdp).1 = true →
      ∀ e ∈ (decodeFrames api F fuel c).trace, e.call ≠ .finish) := by
  refine ⟨?_, ?_⟩
  · intro hb
    obtain ⟨cbs, r, d', c₁, -, hc₁, -, -, -, hcall⟩ :=
      apiCall_WF { c with mFdp := (F.ConsumeBool c.mFdp).2 } d hd hwf
        .process_until_end_of_stream .bool api.process_until_end_of_stream
    obtain ⟨cbs₂, r₂, d₂, c₂, -, -, -, -, -, hcall₂⟩ :=
      apiCall_WF { c₁ with mDecoder := some d' } d' rfl hc₁ .finish .bool api.finish
    unfold decodeFrames
    simp only [hb, Bool.false_eq_true, if_false, hcall, Exec.bind, hcall₂, Exec.pure]
    exact ⟨⟨_, rfl⟩, rfl⟩
  · intro hb
    obtain ⟨cbs, r, d', c₁, -, hc₁, -, -, -, hcall⟩ :=
      apiCall_WF { c with mFdp := (F.ConsumeBool c.mFdp).2 } d hd hwf
        .process_until_end_of_metadata .bool api.process_until_end_of_metadata
    obtain ⟨-, h2, h3⟩ := decodeLoop_exit api fuel { c₁ with mDecoder := some d' } d' hc₁ rfl
    unfold decodeFrames
    simp only [hb, if_true, hcall, Exec.bind]
    cases r
    · simp [Exec.pure]
    · simp only [Bool.true_eq_false, if_false]
      rcases hres : (decodeLoop api fuel { c₁ with mDecoder := some d' }).res with l | _ | _
      · obtain ⟨g1, -⟩ := h3 l hres
        simp only [g1, Exec.pure, List.append_nil]
        intro e he
        simp only [List.cons_append, List.nil_append, List.mem_cons] at he
        rcases he with rfl | he
        · simp
        · rcases h2 e he with h | h <;> simp [h]
      · simp only
        intro e he
        simp only [List.cons_append, List.nil_append, List.mem_cons] at he
        rcases he with rfl | he
        · simp
        · rcases h2 e he with h | h <;> simp [h]
      · simp only
        intro e he
        simp only [List.cons_append, List.nil_append, List.mem_cons] at he
        rcases he with rfl | he
        · simp
        · rcases h2 e he with h | h <;> simp [h]

/-- C6: `initDecoder` gives `init_stream` no seek, tell, length or eof callback, whatever the
decoder; run on the decoder of the specification, whose byte source is then not seekable, every
`seek_absolute` call it issues, whatever its 64-bit target, returns `false` and invokes no
callback; no call of `initDecoder` invokes a callback, `initDecoder` returns, and when it does
`mBufferPos` is still 0 and the decoder has consumed no byte, is at position 0 and is left
unchanged by every seek, which fails. -/
theorem initDecoder_seek_fails (P : DecoderParts) (F : FdpApi)
    (data : Option (List FLAC__byte)) (size : Nat) :
    (∀ (D : Type) (api : StreamDecoderApi D) (c : Codec D),
      ∀ e ∈ (initDecoder api F c).trace, ∀ cbs, e.call = .init_stream cbs →
        cbs.seek_callback = false ∧ cbs.tell_callback = false ∧ cbs.length_callback = false ∧
          cbs.eof_callback = false) ∧
    (∀ e ∈ (initDecoder (specDecoder P) F (Codec.new data size)).trace,
      e.callbacks = [] ∧
      (∀ t, e.call = .seek_absolute t → t < 2 ^ 64 ∧ e.ret = .bool false)) ∧
    ∃ b c', (initDecoder (specDecoder P) F (Codec.new data size)).res = .done (b, c') ∧
      c'.mBufferPos = 0 ∧
      ∀ d, c'.mDecoder = some d →
        d.seekable = false ∧ d.bytePosition = 0 ∧ d.bytesConsumed = 0 ∧
        ∀ t, (specDecoder P).seek_absolute d t = .ret (false, d) := by
  obtain ⟨hE, ⟨b, c'⟩, hres, hpos, hdec⟩ :=
    initDecoder_spec_atStart P F (Codec.new data size) rfl
  refine ⟨?_, fun e he => ⟨(hE e he).1, (hE e he).2.2⟩, b, c', hres, hpos, ?_⟩
  · intro D api c e he cbs hcall
    rcases (initDecoder_calls api F c).1 e he with h | h | h | ⟨t, -, h⟩
    · rw [hcall] at h
      cases h
    · rw [hcall] at h
      cases h
    · rw [hcall] at h
      cases h
      exact ⟨rfl, rfl, rfl, rfl⟩
    · rw [hcall] at h
      cases h
  · intro d hd
    obtain ⟨h1, h2, h3⟩ := hdec d hd
    refine ⟨h1, h2, h3, ?_⟩
    intro t
    simp [specDecoder, h1]

/-- C7, as the code has it: in every execution of `initDecoder`, every configuration call other
than `set_metadata_respond_all` is issued before `init_stream`: after the `init_stream` call the
only configuration call that is issued is `set_metadata_respond_all`, which in turn is never
issued before `init_stream`. -/
theorem initDecoder_configuration_order {D : Type} (api : StreamDecoderApi D) (F : FdpApi)
    (c : Codec D) (pre post : List Event) (e : Event)
    (htrace : (initDecoder api F c).trace = pre ++ e :: post)
    (hinit : e.call.isInitStream = true) :
    (∀ x ∈ post, x.call.isConfiguration = true → x.call = .set_metadata_respond_all) ∧
    (∀ x ∈ pre, x.call ≠ .set_metadata_respond_all) := by
  have hp := (initDecoder_staged api F c).1
  rw [htrace] at hp
  obtain ⟨-, hcons, hcross⟩ := List.pairwise_append.mp hp
  have hstage := ApiCall.stage_of_isInitStream e.call hinit
  refine ⟨?_, ?_⟩
  · intro x hx hconf
    have h := (List.pairwise_cons.mp hcons).1 x hx
    rw [hstage] at h
    exact ApiCall.configuration_after_init x.call hconf h
  · intro x hx hcall
    have h := hcross x hx e (List.mem_cons_self _ _)
    rw [hstage, hcall] at h
    simp [ApiCall.stage] at h

/-- C7 as stated fails: on the input `demoInput` the calls of `initDecoder` are, in order,
`new`, `set_metadata_ignore_all`, `set_md5_checking`, `set_metadata_ignore`,
`set_metadata_respond`, `init_stream`, `set_metadata_respond_all`, `seek_absolute`: the
configuration call `set_metadata_respond_all` is issued after `init_stream` has returned. -/
theorem initDecoder_respond_all_after_init_stream :
    (initDecoder (specDecoder demoParts) llvmFdp (Codec.new (some demoInput) 15)).trace.map
        (fun e => e.call)
      = [.new, .set_metadata_ignore_all, .set_md5_checking true,
          .set_metadata_ignore .STREAMINFO, .set_metadata_respond .STREAMINFO,
          .init_stream harnessCallbacks, .set_metadata_respond_all,
          .seek_absolute 578437695752307201] ∧
    ∃ pre e post,
      (initDecoder (specDecoder demoParts) llvmFdp (Codec.new (some demoInput) 15)).trace
        = pre ++ e :: post ∧
      e.call.isInitStream = true ∧ e.ret = .init .OK ∧
      ∃ x ∈ post, x.call.isConfiguration = true :=
  ⟨by decide, demoBeforeInit, demoInit, demoAfterInit, by decide, rfl, rfl,
    ⟨.set_metadata_respond_all, [], .bool false⟩, by decide, rfl⟩

/-- C7 as amended, on the input `demoInput`. -/
theorem initDecoder_configuration_order_witness :
    ((initDecoder (specDecoder demoParts) llvmFdp (Codec.new (some demoInput) 15)).trace
        = demoBeforeInit ++ demoInit :: demoAfterInit ∧
      demoInit.call.isInitStream = true) ∧
    (∀ x ∈ demoAfterInit, x.call.isConfiguration = true →
      x.call = .set_metadata_respond_all) ∧
    (∀ x ∈ demoBeforeInit, x.call ≠ .set_metadata_respond_all) :=
  ⟨⟨by decide, rfl⟩,
    initDecoder_configuration_order (specDecoder demoParts) llvmFdp
      (Codec.new (some demoInput) 15) demoBeforeInit demoAfterInit demoInit (by decide) rfl⟩

/-- C9, for the spec decoder on a started Codec over three bytes. -/
theorem decodeFrames_finish_witness :
    (startedCodec.WF ∧ startedCodec.mDecoder = some startedDecoder) ∧
    ((llvmFdp.ConsumeBool startedCodec.mFdp).1 = false →
      (∃ c', (decodeFrames (specDecoder demoParts) llvmFdp 5 startedCodec).res = .done c') ∧
      (decodeFrames (specDecoder demoParts) llvmFdp 5 startedCodec).trace.map (fun e => e.call)
        = [.process_until_end_of_stream, .finish]) ∧
    ((llvmFdp.ConsumeBool startedCodec.mFdp).1 = true →
      ∀ e ∈ (decodeFrames (specDecoder demoParts) llvmFdp 5 startedCodec).trace,
        e.call ≠ .finish) := by
  have hwf : startedCodec.WF :=
    ⟨by decide, by norm_num [startedCodec, Codec.new, SIZE_MOD], by intro src h; cases h; rfl⟩
  exact ⟨⟨hwf, rfl⟩,
    decodeFrames_finish (specDecoder demoParts) llvmFdp 5 startedCodec startedDecoder hwf rfl⟩

end FlacFuzz
